import Mathlib

/-!
Verification of the filter/index/projection pushdown passes of the
go-mysql-server analyzer (file pushdown.go of package analyzer).

The plan-node data model, the expression model and the pushdown pass
functions below are shallow embeddings of the Go source.  Helper
functions of the repository that are referenced by the pushdown file but
whose source is not part of the analyzed sources (the filter set, the
field-index fixers, getTable, getFiltersByTable, getFieldsByTable,
expression.JoinAnd, withTable, normalizeExpression and the table
capability interfaces) are modelled from the specification; each such
definition carries a doc comment saying so.

The Node type below contains only resolved, non-DDL plan variants, so
the canDoPushdown guard of the source (which rejects unresolved trees,
DDL nodes and INSERT targets) is identically true on this fragment and
is elided from the pass definitions.
-/

namespace GmsPushdown

/-- Join type of an indexed join, mirroring plan.JoinType
(JoinTypeInner, JoinTypeLeft, JoinTypeRight). -/
inductive JoinType where
  | inner
  | left
  | right
deriving DecidableEq, Repr

/-- A schema column: owning table (or alias) name and column name,
mirroring sql.Column's Source and Name fields. -/
structure Column where
  source : String
  name : String
deriving DecidableEq, Repr

/-- Scalar expression tree, mirroring sql.Expression.  getField carries
the table qualifier, the column name and the cached positional index
into the enclosing schema (expression.GetField). -/
inductive Expr where
  | getField (table name : String) (index : Nat)
  | lit (v : Int)
  | and (l r : Expr)
  | or (l r : Expr)
  | eq (l r : Expr)
deriving DecidableEq, Repr

/-- Modelled from the spec: a table value consumed through capability
interfaces.  filtered says whether the table implements
sql.FilteredTable; canHandle is the set of predicates its
HandledFilters method reports it can enforce; appliedFilters is the
filter set installed by WithFilters; projectable says whether it
implements sql.ProjectedTable and projection is the column set
installed by WithProjection; indexAddressable says whether it
implements sql.IndexAddressableTable. -/
structure Table where
  name : String
  schema : List Column
  filtered : Bool
  canHandle : List Expr
  appliedFilters : List Expr
  projectable : Bool
  projection : Option (List String)
  indexAddressable : Bool
deriving DecidableEq, Repr

/-- Modelled from the spec: the predicate-acceptance capability.  Given
candidate predicates, the table reports back the subset it can
enforce (sql.FilteredTable.HandledFilters). -/
def Table.handledFilters (t : Table) (fs : List Expr) : List Expr :=
  fs.filter (fun e => t.canHandle.contains e)

/-- Modelled from the spec: sql.FilteredTable.WithFilters returns a new
table value configured with exactly the given predicates installed. -/
def Table.withFilters (t : Table) (fs : List Expr) : Table :=
  { t with appliedFilters := fs }

/-- Modelled from the spec: sql.ProjectedTable.WithProjection returns a
new table value that will only produce the given columns. -/
def Table.withProjection (t : Table) (cols : List String) : Table :=
  { t with projection := some cols }

/-- Effective schema of a table value: its declared schema narrowed to
the projected columns when a projection has been installed. -/
def Table.effSchema (t : Table) : List Column :=
  match t.projection with
  | some cols => t.schema.filter (fun c => cols.contains c.name)
  | none => t.schema

/-- Plan node tree, mirroring the plan package variants used by the
pushdown file: ResolvedTable, TableAlias, IndexedTableAccess (with its
index name, lookup values and key expressions), ValueDerivedTable,
SubqueryAlias (with its exposed schema), Filter, Project, InnerJoin,
LeftJoin, RightJoin, IndexedJoin (with its join type) and
DecoratedNode. -/
inductive Node where
  | resolvedTable (table : Table)
  | tableAlias (name : String) (child : Node)
  | indexedTableAccess (table : Table) (indexName : String) (keyExprs : List Expr)
  | valueDerivedTable (name : String) (schema : List Column) (values : List (List Expr))
  | subqueryAlias (name : String) (schema : List Column) (child : Node)
  | filter (pred : Expr) (child : Node)
  | project (exprs : List Expr) (child : Node)
  | innerJoin (left right : Node) (cond : Expr)
  | leftJoin (left right : Node) (cond : Expr)
  | rightJoin (left right : Node) (cond : Expr)
  | indexedJoin (joinType : JoinType) (left right : Node) (cond : Expr)
  | decoratedNode (label : String) (child : Node)
deriving DecidableEq, Repr

/-- Name of a nameable node (NameableNode.Name): the table name for a
resolved table or index access, the alias name for aliases. -/
def Node.name : Node → String
  | .resolvedTable t => t.name
  | .tableAlias n _ => n
  | .indexedTableAccess t _ _ => t.name
  | .valueDerivedTable n _ _ => n
  | .subqueryAlias n _ _ => n
  | _ => ""

/-- Schema of a node (sql.Node.Schema): tables expose their effective
schema, an alias renames the owning source of its child's columns,
filters and decorators are transparent, joins concatenate. -/
def Node.schema : Node → List Column
  | .resolvedTable t => t.effSchema
  | .tableAlias n c => c.schema.map (fun col => { col with source := n })
  | .indexedTableAccess t _ _ => t.effSchema
  | .valueDerivedTable _ sch _ => sch
  | .subqueryAlias _ sch _ => sch
  | .filter _ c => c.schema
  | .project es c =>
      es.map (fun e =>
        match e with
        | .getField t n _ => ⟨t, n⟩
        | _ => ⟨"", ""⟩)
  | .innerJoin l r _ => l.schema ++ r.schema
  | .leftJoin l r _ => l.schema ++ r.schema
  | .rightJoin l r _ => l.schema ++ r.schema
  | .indexedJoin _ l r _ => l.schema ++ r.schema
  | .decoratedNode _ c => c.schema

/-- Pushing down a filter is incompatible with the secondary table in a
Left or Right join, so the child selector used by the filter pushdown
walk refuses to descend into the secondary side, and blocks descent
below a table alias entirely (source function
filterPushdownChildSelector). -/
def filterPushdownChildSelector (parent : Node) (child : Node) (childNum : Nat) : Bool :=
  match parent with
  | .tableAlias _ _ => false
  | .indexedJoin jt _ _ _ =>
      if jt = JoinType.left ∨ jt = JoinType.right then childNum == 0 else true
  | .leftJoin _ _ _ => childNum == 0
  | .rightJoin _ _ _ => childNum == 1
  | _ => true

/-- Child selector of the index-conversion walk
(convertFiltersToIndexedAccess's childSelector): never descends into a
child that is already an IndexedTableAccess, and for indexed, left and
right joins restricts which side is eligible. -/
def convertChildSelector (parent : Node) (child : Node) (childNum : Nat) : Bool :=
  match child with
  | .indexedTableAccess _ _ _ => false
  | _ =>
    match parent with
    | .indexedJoin _ _ _ _ => childNum == 0
    | .leftJoin _ _ _ => childNum == 0
    | .rightJoin _ _ _ => childNum == 1
    | _ => true

def Node.isTableAlias : Node → Bool
  | .tableAlias _ _ => true
  | _ => false

def Node.isLeftJoin : Node → Bool
  | .leftJoin _ _ _ => true
  | _ => false

def Node.isRightJoin : Node → Bool
  | .rightJoin _ _ _ => true
  | _ => false

def Node.isIndexedTableAccess : Node → Bool
  | .indexedTableAccess _ _ _ => true
  | _ => false

/-- Parents that the filter-pushdown child selector leaves unrestricted
(every parent other than a table alias, a left join, a right join or an
indexed join). -/
def filterSelectorUnrestricted : Node → Bool
  | .tableAlias _ _ => false
  | .leftJoin _ _ _ => false
  | .rightJoin _ _ _ => false
  | .indexedJoin _ _ _ _ => false
  | _ => true

/-- Parents that the index-conversion child selector leaves unrestricted
(every parent other than a left, right or indexed join; in particular a
table alias does not restrict this selector). -/
def convertSelectorUnrestricted : Node → Bool
  | .leftJoin _ _ _ => false
  | .rightJoin _ _ _ => false
  | .indexedJoin _ _ _ _ => false
  | _ => true

/-- Sample table used for concrete witnesses and counterexamples. -/
def sampleTable (nm : String) : Table :=
  { name := nm
    schema := [⟨nm, "x"⟩, ⟨nm, "y"⟩]
    filtered := false
    canHandle := []
    appliedFilters := []
    projectable := false
    projection := none
    indexAddressable := false }

def nodeA : Node := .resolvedTable (sampleTable "a")

def nodeB : Node := .resolvedTable (sampleTable "b")

/-- Modelled from the spec: expression.JoinAnd folds a non-empty
predicate list into a left-nested AND chain, preserving the original
relative order; it is never applied to an empty list by the pushdown
code (every call site guards on non-emptiness), so the empty case is
given an arbitrary true literal. -/
def joinAnd : List Expr → Expr
  | [] => .lit 1
  | e :: rest => rest.foldl Expr.and e

/-- Modelled from the spec: getTable extracts the underlying table value
from a table-like node (the table of the resolved-table or index-scan
node found inside it, the last one in traversal order), or none when
the node contains no such table. -/
def Node.getTable : Node → Option Table
  | .resolvedTable t => some t
  | .indexedTableAccess t _ _ => some t
  | .tableAlias _ c => c.getTable
  | .subqueryAlias _ _ c => c.getTable
  | .filter _ c => c.getTable
  | .project _ c => c.getTable
  | .decoratedNode _ c => c.getTable
  | .valueDerivedTable _ _ _ => none
  | .innerJoin l r _ => (r.getTable).orElse (fun _ => l.getTable)
  | .leftJoin l r _ => (r.getTable).orElse (fun _ => l.getTable)
  | .rightJoin l r _ => (r.getTable).orElse (fun _ => l.getTable)
  | .indexedJoin _ l r _ => (r.getTable).orElse (fun _ => l.getTable)

/-- Table alias map: alias (or table) name to real table name, built
once per pass over the whole tree (spec section on the table alias
map). -/
abbrev TableAliases := List (String × String)

/-- Association lookup in a filters-by-table map, empty list when the
table has no attributed conjuncts. -/
def lookupTable (fbt : List (String × List Expr)) (nm : String) : List Expr :=
  match fbt.find? (fun p => p.1 == nm) with
  | some p => p.2
  | none => []

/-- Modelled from the spec: the filter attribution set.  filtersByTable
holds, per table name, the ordered conjuncts attributed to exactly that
table; handledFilters is the global marker set of conjuncts already
relocated. -/
structure FilterSet where
  filtersByTable : List (String × List Expr)
  handledFilters : List Expr
  tableAliases : TableAliases
deriving DecidableEq, Repr

/-- Modelled from the spec: newFilterSet builds a fresh attribution set
with an empty handled-marker set. -/
def newFilterSet (fbt : List (String × List Expr)) (tas : TableAliases) : FilterSet :=
  { filtersByTable := fbt, handledFilters := [], tableAliases := tas }

/-- Modelled from the spec: the not-yet-handled conjuncts attributed to
the given table, in their original relative order. -/
def FilterSet.availableFiltersForTable (fs : FilterSet) (nm : String) : List Expr :=
  (lookupTable fs.filtersByTable nm).filter (fun e => !fs.handledFilters.contains e)

/-- Modelled from the spec: records that the given conjuncts have been
relocated. -/
def FilterSet.markFiltersHandled (fs : FilterSet) (es : List Expr) : FilterSet :=
  { fs with handledFilters := fs.handledFilters ++ es }

/-- Modelled from the spec: number of conjuncts marked handled. -/
def FilterSet.handledCount (fs : FilterSet) : Nat :=
  fs.handledFilters.length

/-- Modelled from the spec: the global view of all not-yet-handled
conjuncts, in their original relative order. -/
def FilterSet.availableFilters (fs : FilterSet) : List Expr :=
  ((fs.filtersByTable.map Prod.snd).flatten).filter (fun e => !fs.handledFilters.contains e)

/-- Source function removePushedDownPredicates: removes all handled
filter predicates from the filter node given; if all predicates have
been handled, it replaces the filter with its child. -/
def removePushedDownPredicates (pred : Expr) (child : Node) (fs : FilterSet) : Node :=
  if fs.handledCount = 0 then
    .filter pred child
  else
    let unhandled := fs.availableFilters
    if unhandled.isEmpty then child
    else .filter (joinAnd unhandled) child

/-- Error-propagating list map in the Except monad, used to model Go
loops that return on the first error. -/
def mapExcept (f : α → Except String β) : List α → Except String (List β)
  | [] => .ok []
  | a :: as =>
      match f a with
      | .error e => .error e
      | .ok b =>
          match mapExcept f as with
          | .error e => .error e
          | .ok bs => .ok (b :: bs)

/-- Position of the column with the given owning table and name in a
schema. -/
def schemaIndexOf (schema : List Column) (tbl nm : String) : Option Nat :=
  schema.findIdx? (fun c => c.source == tbl && c.name == nm)

/-- Modelled from the spec: FixFieldIndexesOnExpressions recomputes the
cached positional index of every column reference in an expression
against the given schema; a reference that cannot be resolved there is
a propagated error. -/
def fixExpr (schema : List Column) : Expr → Except String Expr
  | .getField t n _ =>
      match schemaIndexOf schema t n with
      | some i => .ok (.getField t n i)
      | none => .error ("field missing " ++ t ++ "." ++ n)
  | .lit v => .ok (.lit v)
  | .and l r =>
      match fixExpr schema l, fixExpr schema r with
      | .ok l', .ok r' => .ok (.and l' r')
      | .error e, _ => .error e
      | _, .error e => .error e
  | .or l r =>
      match fixExpr schema l, fixExpr schema r with
      | .ok l', .ok r' => .ok (.or l' r')
      | .error e, _ => .error e
      | _, .error e => .error e
  | .eq l r =>
      match fixExpr schema l, fixExpr schema r with
      | .ok l', .ok r' => .ok (.eq l' r')
      | .error e, _ => .error e
      | _, .error e => .error e

/-- Modelled from the spec: FixFieldIndexesOnExpressions over a list of
expressions, stopping at the first error. -/
def fixExprs (schema : List Column) (es : List Expr) : Except String (List Expr) :=
  mapExcept (fixExpr schema) es

/-- Rewrite step of pushdownFiltersUnderSubqueryAlias: every column
reference is replaced, via its cached position, by the owning table and
name of the corresponding column of the inner child schema (source
lines 459-467; the out-of-range case, a Go panic, is modelled as an
error). -/
def rewriteToChildSchema (childSchema : List Column) : Expr → Except String Expr
  | .getField _ _ i =>
      match childSchema[i]? with
      | some col => .ok (.getField col.source col.name i)
      | none => .error "index out of range"
  | .lit v => .ok (.lit v)
  | .and l r =>
      match rewriteToChildSchema childSchema l, rewriteToChildSchema childSchema r with
      | .ok l', .ok r' => .ok (.and l' r')
      | .error e, _ => .error e
      | _, .error e => .error e
  | .or l r =>
      match rewriteToChildSchema childSchema l, rewriteToChildSchema childSchema r with
      | .ok l', .ok r' => .ok (.or l' r')
      | .error e, _ => .error e
      | _, .error e => .error e
  | .eq l r =>
      match rewriteToChildSchema childSchema l, rewriteToChildSchema childSchema r with
      | .ok l', .ok r' => .ok (.eq l' r')
      | .error e, _ => .error e
      | _, .error e => .error e

/-- Column references occurring in an expression, as
(table, name, cached index) triples. -/
def Expr.getFields : Expr → List (String × String × Nat)
  | .getField t n i => [(t, n, i)]
  | .lit _ => []
  | .and l r => l.getFields ++ r.getFields
  | .or l r => l.getFields ++ r.getFields
  | .eq l r => l.getFields ++ r.getFields

/-- Source function pushdownFiltersUnderSubqueryAlias: takes the
available filters attributed to the subquery alias name and moves them
under the subquery alias, rewriting column references from the alias's
exposed schema to the inner child schema.  The mutation of the filter
set is made explicit by returning the updated set. -/
def pushdownFiltersUnderSubqueryAlias (nm : String) (sch : List Column) (child : Node)
    (fs : FilterSet) : Except String (Node × FilterSet) :=
  let handled := fs.availableFiltersForTable nm
  if handled.isEmpty then .ok (.subqueryAlias nm sch child, fs)
  else
    let fs' := fs.markFiltersHandled handled
    match fixExprs sch handled with
    | .error e => .error e
    | .ok fixed =>
      match mapExcept (rewriteToChildSchema child.schema) fixed with
      | .error e => .error e
      | .ok rewritten =>
          .ok (.subqueryAlias nm sch (.filter (joinAnd rewritten) child), fs')

/-- Modelled from the spec: normalizeExpression rewrites an
alias-qualified column reference to the base-table-qualified form using
the table alias map. -/
def normalizeExpression (tas : TableAliases) : Expr → Expr
  | .getField t n i =>
      match tas.find? (fun p => p.1 == t) with
      | some p => .getField p.2 n i
      | none => .getField t n i
  | .lit v => .lit v
  | .and l r => .and (normalizeExpression tas l) (normalizeExpression tas r)
  | .or l r => .or (normalizeExpression tas l) (normalizeExpression tas r)
  | .eq l r => .eq (normalizeExpression tas l) (normalizeExpression tas r)

/-- Modelled from the spec: normalizeExpressions over a list. -/
def normalizeExpressions (tas : TableAliases) (es : List Expr) : List Expr :=
  es.map (normalizeExpression tas)

/-- Modelled from the spec: getTableAliases builds the association from
alias name to the underlying table name, over the whole tree. -/
def getTableAliases : Node → TableAliases
  | .resolvedTable _ => []
  | .tableAlias nm c =>
      (match c.getTable with
       | some t => [(nm, t.name)]
       | none => []) ++ getTableAliases c
  | .indexedTableAccess _ _ _ => []
  | .valueDerivedTable _ _ _ => []
  | .subqueryAlias _ _ c => getTableAliases c
  | .filter _ c => getTableAliases c
  | .project _ c => getTableAliases c
  | .innerJoin l r _ => getTableAliases l ++ getTableAliases r
  | .leftJoin l r _ => getTableAliases l ++ getTableAliases r
  | .rightJoin l r _ => getTableAliases l ++ getTableAliases r
  | .indexedJoin _ l r _ => getTableAliases l ++ getTableAliases r
  | .decoratedNode _ c => getTableAliases c

/-- Modelled from the spec: withTable replaces the underlying table
value of a table-like node (every resolved-table or index-scan node
inside it receives the new table value). -/
def Node.withTable : Node → Table → Node
  | .resolvedTable _, t => .resolvedTable t
  | .tableAlias nm c, t => .tableAlias nm (c.withTable t)
  | .indexedTableAccess _ ix ks, t => .indexedTableAccess t ix ks
  | .valueDerivedTable nm sch vs, _ => .valueDerivedTable nm sch vs
  | .subqueryAlias nm sch c, t => .subqueryAlias nm sch (c.withTable t)
  | .filter p c, t => .filter p (c.withTable t)
  | .project es c, t => .project es (c.withTable t)
  | .innerJoin l r cnd, t => .innerJoin (l.withTable t) (r.withTable t) cnd
  | .leftJoin l r cnd, t => .leftJoin (l.withTable t) (r.withTable t) cnd
  | .rightJoin l r cnd, t => .rightJoin (l.withTable t) (r.withTable t) cnd
  | .indexedJoin jt l r cnd, t => .indexedJoin jt (l.withTable t) (r.withTable t) cnd
  | .decoratedNode lbl c, t => .decoratedNode lbl (c.withTable t)

/-- Modelled from the spec: FixFieldIndexesForExpressions recomputes the
cached positional indexes of the expressions owned by a node against
the concatenated schemas of the node's children (per the source comment
at the ResolvedTable case of convertFiltersToIndexedAccess, this fixer
uses the schema of children, so a childless node's expressions resolve
against the empty schema). -/
def fixNode : Node → Except String Node
  | .filter p c =>
      match fixExpr c.schema p with
      | .ok p' => .ok (.filter p' c)
      | .error e => .error e
  | .project es c =>
      match fixExprs c.schema es with
      | .ok es' => .ok (.project es' c)
      | .error e => .error e
  | .innerJoin l r cnd =>
      match fixExpr (l.schema ++ r.schema) cnd with
      | .ok cnd' => .ok (.innerJoin l r cnd')
      | .error e => .error e
  | .leftJoin l r cnd =>
      match fixExpr (l.schema ++ r.schema) cnd with
      | .ok cnd' => .ok (.leftJoin l r cnd')
      | .error e => .error e
  | .rightJoin l r cnd =>
      match fixExpr (l.schema ++ r.schema) cnd with
      | .ok cnd' => .ok (.rightJoin l r cnd')
      | .error e => .error e
  | .indexedJoin jt l r cnd =>
      match fixExpr (l.schema ++ r.schema) cnd with
      | .ok cnd' => .ok (.indexedJoin jt l r cnd')
      | .error e => .error e
  | .indexedTableAccess t ix ks =>
      match fixExprs [] ks with
      | .ok ks' => .ok (.indexedTableAccess t ix ks')
      | .error e => .error e
  | .valueDerivedTable nm sch vs =>
      match mapExcept (fixExprs []) vs with
      | .ok vs' => .ok (.valueDerivedTable nm sch vs')
      | .error e => .error e
  | n => .ok n

/-- Modelled from the spec: FixFieldIndexesForTableNode recomputes an
index-scan node's key expression positions against the table's own
schema (used because such nodes have no children). -/
def fixTableNode : Node → Except String Node
  | .indexedTableAccess t ix ks =>
      match fixExprs t.effSchema ks with
      | .ok ks' => .ok (.indexedTableAccess t ix ks')
      | .error e => .error e
  | n => .ok n

/-- Render a list of expressions for a decorator label. -/
def exprsLabel (es : List Expr) : String :=
  reprStr es

/-- Character-list version of the Go strings.HasPrefix check. -/
def listStartsWith : List Char → List Char → Bool
  | _, [] => true
  | [], _ :: _ => false
  | a :: as, b :: bs => a == b && listStartsWith as bs

/-- Character-list substring containment. -/
def listHasSub : List Char → List Char → Bool
  | [], pat => listStartsWith [] pat
  | a :: as, pat => listStartsWith (a :: as) pat || listHasSub as pat

/-- Go strings.Contains: whether sub occurs inside s. -/
def goStrContains (s sub : String) : Bool :=
  listHasSub s.toList sub.toList

/-- Whether the tree contains a decorator node whose label contains the
marker of a previously pushed projection, mirroring the alreadyPushedDown
inspection of canProject. -/
def containsProjDecor : Node → Bool
  | .resolvedTable _ => false
  | .tableAlias _ c => containsProjDecor c
  | .indexedTableAccess _ _ _ => false
  | .valueDerivedTable _ _ _ => false
  | .subqueryAlias _ _ c => containsProjDecor c
  | .filter _ c => containsProjDecor c
  | .project _ c => containsProjDecor c
  | .innerJoin l r _ => containsProjDecor l || containsProjDecor r
  | .leftJoin l r _ => containsProjDecor l || containsProjDecor r
  | .rightJoin l r _ => containsProjDecor l || containsProjDecor r
  | .indexedJoin _ l r _ => containsProjDecor l || containsProjDecor r
  | .decoratedNode lbl c =>
      goStrContains lbl "Projected table access on" || containsProjDecor c

/-- Whether the tree contains an indexed join, mirroring the
containsIndexedJoin inspection of canProject. -/
def containsIndexedJoin : Node → Bool
  | .resolvedTable _ => false
  | .tableAlias _ c => containsIndexedJoin c
  | .indexedTableAccess _ _ _ => false
  | .valueDerivedTable _ _ _ => false
  | .subqueryAlias _ _ c => containsIndexedJoin c
  | .filter _ c => containsIndexedJoin c
  | .project _ c => containsIndexedJoin c
  | .innerJoin l r _ => containsIndexedJoin l || containsIndexedJoin r
  | .leftJoin l r _ => containsIndexedJoin l || containsIndexedJoin r
  | .rightJoin l r _ => containsIndexedJoin l || containsIndexedJoin r
  | .indexedJoin _ _ _ _ => true
  | .decoratedNode _ c => containsIndexedJoin c

/-- Source function canProject, restricted to the modelled node
variants: the DML variants and the subquery-expression inspection of
the source concern constructors outside this model, so the remaining
guards are the indexed-join inspection and the already-pushed-down
decorator inspection. -/
def canProject (n : Node) : Bool :=
  !containsIndexedJoin n && !containsProjDecor n

/-- Top-level AND-conjuncts of a predicate (splitConjunction). -/
def splitConjuncts : Expr → List Expr
  | .and l r => splitConjuncts l ++ splitConjuncts r
  | e => [e]

/-- Distinct table qualifiers referenced by an expression. -/
def Expr.tables (e : Expr) : List String :=
  (e.getFields.map (fun gf => gf.1)).dedup

/-- Table-and-name pairs of the column references of an expression,
without the cached positional index. -/
def Expr.fieldNames (e : Expr) : List (String × String) :=
  e.getFields.map (fun gf => (gf.1, gf.2.1))

/-- Append a conjunct to the bucket of the given table, keeping the
bucket order. -/
def addToTable (acc : List (String × List Expr)) (t : String) (c : Expr) :
    List (String × List Expr) :=
  match acc.find? (fun p => p.1 == t) with
  | some _ => acc.map (fun p => if p.1 == t then (p.1, p.2 ++ [c]) else p)
  | none => acc ++ [(t, [c])]

/-- Modelled from the spec: attribution of one top-level conjunct.  A
conjunct referencing exactly one table is attributed to it; a conjunct
referencing several tables (a join predicate) or none is left
unattributed; a conjunct containing a column reference whose owning
table cannot be resolved (an empty qualifier) makes the whole build
fail. -/
def attributeConjuncts : List Expr → List (String × List Expr) →
    Except String (List (String × List Expr))
  | [], acc => .ok acc
  | c :: cs, acc =>
      if (c.getFields.map (fun gf => gf.1)).contains "" then
        .error "could not assign filters to tables"
      else
        match c.tables with
        | [t] => attributeConjuncts cs (addToTable acc t c)
        | _ => attributeConjuncts cs acc

/-- Filter predicates of every filter node of a subtree, in preorder. -/
def nodeFilterPreds : Node → List Expr
  | .resolvedTable _ => []
  | .tableAlias _ c => nodeFilterPreds c
  | .indexedTableAccess _ _ _ => []
  | .valueDerivedTable _ _ _ => []
  | .subqueryAlias _ _ c => nodeFilterPreds c
  | .filter p c => p :: nodeFilterPreds c
  | .project _ c => nodeFilterPreds c
  | .innerJoin l r _ => nodeFilterPreds l ++ nodeFilterPreds r
  | .leftJoin l r _ => nodeFilterPreds l ++ nodeFilterPreds r
  | .rightJoin l r _ => nodeFilterPreds l ++ nodeFilterPreds r
  | .indexedJoin _ l r _ => nodeFilterPreds l ++ nodeFilterPreds r
  | .decoratedNode _ c => nodeFilterPreds c

/-- Modelled from the spec: getFiltersByTable decomposes the predicate
of every filter node of the subtree into top-level conjuncts and
attributes each conjunct to the single table it references; the whole
build fails when a conjunct cannot be cleanly attributed. -/
def getFiltersByTable (n : Node) : Except String (List (String × List Expr)) :=
  attributeConjuncts ((nodeFilterPreds n).map splitConjuncts).flatten []

/-- Expressions owned directly by a node (sql.Expressioner). -/
def Node.ownExprs : Node → List Expr
  | .filter p _ => [p]
  | .project es _ => es
  | .innerJoin _ _ cnd => [cnd]
  | .leftJoin _ _ cnd => [cnd]
  | .rightJoin _ _ cnd => [cnd]
  | .indexedJoin _ _ _ cnd => [cnd]
  | .indexedTableAccess _ _ ks => ks
  | .valueDerivedTable _ _ vs => vs.flatten
  | _ => []

/-- Expressions of a whole tree in preorder, with descent blocked at a
table-alias boundary (the projection pass's column-usage computation
does not descend below an alias). -/
def collectTreeExprs : Node → List Expr
  | .resolvedTable _ => []
  | .tableAlias _ _ => []
  | .indexedTableAccess _ _ ks => ks
  | .valueDerivedTable _ _ vs => vs.flatten
  | .subqueryAlias _ _ c => collectTreeExprs c
  | .filter p c => p :: collectTreeExprs c
  | .project es c => es ++ collectTreeExprs c
  | .innerJoin l r cnd => cnd :: (collectTreeExprs l ++ collectTreeExprs r)
  | .leftJoin l r cnd => cnd :: (collectTreeExprs l ++ collectTreeExprs r)
  | .rightJoin l r cnd => cnd :: (collectTreeExprs l ++ collectTreeExprs r)
  | .indexedJoin _ l r cnd => cnd :: (collectTreeExprs l ++ collectTreeExprs r)
  | .decoratedNode _ c => collectTreeExprs c

/-- Table-and-name pairs of every column reference of the tree (the
data the projection pass's field-usage analysis depends on). -/
def collectFieldNames (n : Node) : List (String × String) :=
  ((collectTreeExprs n).map Expr.fieldNames).flatten

/-- Per-table projected column sets and the per-pass record of already
applied projections. -/
abbrev FieldsByTable := List (String × List String)

/-- Lookup of the column set of one table, empty when absent. -/
def lookupFields (fbt : FieldsByTable) (nm : String) : List String :=
  match fbt.find? (fun p => p.1 == nm) with
  | some p => p.2
  | none => []

/-- Add one referenced column name to the per-table field sets. -/
def addField (acc : FieldsByTable) (t n : String) : FieldsByTable :=
  match acc.find? (fun p => p.1 == t) with
  | some p =>
      if p.2.contains n then acc
      else acc.map (fun q => if q.1 == t then (q.1, q.2 ++ [n]) else q)
  | none => acc ++ [(t, [n])]

/-- Modelled from the spec: getFieldsByTable computes, per table, the
set of columns referenced by any expression of the tree. -/
def getFieldsByTable (n : Node) : FieldsByTable :=
  (collectFieldNames n).foldl (fun acc p => addField acc p.1 p.2) []

/-- Modelled from the spec: the index lookup descriptor produced by the
external index-selection step, consumed here only for substitution. -/
structure IndexLookup where
  indexName : String
  keyExprs : List Expr
deriving DecidableEq, Repr

/-- Per-table index lookup descriptors (indexLookupsByTable). -/
abbrev IndexesByTable := List (String × IndexLookup)

/-- Source function pushdownFiltersToTable: pushes the available
filters attributed to a table-like node into the table itself when it
exposes the predicate-acceptance capability, and re-attaches the rest
as a new filter node directly above the table.  The filter set mutation
is made explicit by returning the updated set. -/
def pushdownFiltersToTable (tas : TableAliases) (tableNode : Node) (fs : FilterSet) :
    Except String (Node × FilterSet) :=
  match tableNode with
  | .subqueryAlias nm sch c => pushdownFiltersUnderSubqueryAlias nm sch c fs
  | _ =>
    match tableNode.getTable with
    | none => .ok (tableNode, fs)
    | some table =>
        let avail := fs.availableFiltersForTable tableNode.name
        let step1 : Except String (Table × FilterSet × Node) :=
          if table.filtered && !avail.isEmpty then
            let handled := table.handledFilters (normalizeExpressions tas avail)
            let fs1 := fs.markFiltersHandled handled
            match fixExprs table.effSchema handled with
            | .error e => .error e
            | .ok handledFixed =>
                .ok (table.withFilters handledFixed, fs1,
                  .decoratedNode ("Filtered table access on " ++ exprsLabel handledFixed)
                    tableNode)
          else .ok (table, fs, tableNode)
        match step1 with
        | .error e => .error e
        | .ok (table1, fs1, newTableNode) =>
            let avail2 := fs1.availableFiltersForTable tableNode.name
            let step2 : Except String (Option Expr × FilterSet) :=
              if !avail2.isEmpty then
                let fs2 := fs1.markFiltersHandled avail2
                match fixExprs tableNode.schema avail2 with
                | .error e => .error e
                | .ok handled2 => .ok (some (joinAnd handled2), fs2)
              else .ok (none, fs1)
            match step2 with
            | .error e => .error e
            | .ok (pushedExpr, fs2) =>
                match tableNode with
                | .resolvedTable _ | .tableAlias _ _ | .indexedTableAccess _ _ _
                | .valueDerivedTable _ _ _ =>
                    let node := newTableNode.withTable table1
                    match pushedExpr with
                    | some pe => .ok (.filter pe node, fs2)
                    | none => .ok (node, fs2)
                | _ => .error "invalid node of type for pushdown"

/-- Inner walk of pushdownIndexesToTable: a bottom-up transform over
the table-like node that replaces each resolved-table node by a static
index-scan node when the outer node's table is index-addressable and an
index lookup descriptor exists for the outer node's name. -/
def replaceWithIndexedAccess (outer : Node) (indexes : IndexesByTable) : Node → Node
  | .resolvedTable t =>
      (match outer.getTable with
       | none => .resolvedTable t
       | some table =>
          if table.indexAddressable then
            match indexes.find? (fun p => p.1 == outer.name) with
            | some p => .indexedTableAccess t p.2.indexName p.2.keyExprs
            | none => .resolvedTable t
          else .resolvedTable t)
  | .tableAlias nm c => .tableAlias nm (replaceWithIndexedAccess outer indexes c)
  | .indexedTableAccess t ix ks => .indexedTableAccess t ix ks
  | .valueDerivedTable nm sch vs => .valueDerivedTable nm sch vs
  | .subqueryAlias nm sch c => .subqueryAlias nm sch (replaceWithIndexedAccess outer indexes c)
  | .filter p c => .filter p (replaceWithIndexedAccess outer indexes c)
  | .project es c => .project es (replaceWithIndexedAccess outer indexes c)
  | .innerJoin l r cnd =>
      .innerJoin (replaceWithIndexedAccess outer indexes l)
        (replaceWithIndexedAccess outer indexes r) cnd
  | .leftJoin l r cnd =>
      .leftJoin (replaceWithIndexedAccess outer indexes l)
        (replaceWithIndexedAccess outer indexes r) cnd
  | .rightJoin l r cnd =>
      .rightJoin (replaceWithIndexedAccess outer indexes l)
        (replaceWithIndexedAccess outer indexes r) cnd
  | .indexedJoin jt l r cnd =>
      .indexedJoin jt (replaceWithIndexedAccess outer indexes l)
        (replaceWithIndexedAccess outer indexes r) cnd
  | .decoratedNode lbl c => .decoratedNode lbl (replaceWithIndexedAccess outer indexes c)

/-- Source function pushdownIndexesToTable: attempts to convert the
resolved-table node inside a table-like node to a static index scan
(the transform itself cannot fail, the error component mirrors the Go
signature). -/
def pushdownIndexesToTable (tableNode : Node) (indexes : IndexesByTable) :
    Except String Node :=
  .ok (replaceWithIndexedAccess tableNode indexes tableNode)

/-- Source function pushdownProjectionsToTable: applies the computed
column set to the underlying table through its projection capability
the first time the table name is seen in the pass, decorates every
projected encounter, and returns non-capable or column-less tables
unchanged.  The per-pass record of used projections is threaded
explicitly. -/
def pushdownProjectionsToTable (fbt : FieldsByTable) (tableNode : Node) (used : FieldsByTable) :
    Except String (Node × FieldsByTable) :=
  match tableNode.getTable with
  | none => .ok (tableNode, used)
  | some table =>
      if table.projectable && !(lookupFields fbt tableNode.name).isEmpty then
        let s :=
          match used.find? (fun p => p.1 == tableNode.name) with
          | none =>
              let projectedFields := lookupFields fbt tableNode.name
              (table.withProjection projectedFields,
               (tableNode.name, projectedFields) :: used)
          | some _ => (table, used)
        let newTableNode := Node.decoratedNode
          ("Projected table access on " ++ String.intercalate ", " (lookupFields fbt tableNode.name))
          tableNode
        match tableNode with
        | .resolvedTable _ | .tableAlias _ _ | .indexedTableAccess _ _ _ =>
            .ok (newTableNode.withTable s.1, s.2)
        | _ => .error "invalid node of type for pushdown"
      else .ok (tableNode, used)

/-- Per-node transform of the filter pushdown walk (the closure inside
transformPushdownFilters): a filter node has its handled conjuncts
removed and is then fixed; a table-like node is handed to
pushdownFiltersToTable and returned as-is, without the field-index
fixup (the fixup call of the source is unreachable behind the return
on the previous line); every other node is fixed. -/
def filterVisit (tas : TableAliases) (n : Node) (fs : FilterSet) :
    Except String (Node × FilterSet) :=
  match n with
  | .filter p c =>
      match fixNode (removePushedDownPredicates p c fs) with
      | .ok n' => .ok (n', fs)
      | .error e => .error e
  | .tableAlias _ _ | .resolvedTable _ | .indexedTableAccess _ _ _
  | .valueDerivedTable _ _ _ => pushdownFiltersToTable tas n fs
  | _ =>
      match fixNode n with
      | .ok n' => .ok (n', fs)
      | .error e => .error e

/-- TransformUpWithSelector instantiated with
filterPushdownChildSelector and filterVisit: children are rewritten
first (descent restricted to the preserving side of left, right and
outer indexed joins, and blocked below a table alias), then the rebuilt
node is visited; the filter set is threaded left to right. -/
def filterWalk (tas : TableAliases) : Node → FilterSet → Except String (Node × FilterSet)
  | .resolvedTable t, fs => filterVisit tas (.resolvedTable t) fs
  | .indexedTableAccess t ix ks, fs => filterVisit tas (.indexedTableAccess t ix ks) fs
  | .valueDerivedTable nm sch vs, fs => filterVisit tas (.valueDerivedTable nm sch vs) fs
  | .tableAlias nm c, fs => filterVisit tas (.tableAlias nm c) fs
  | .subqueryAlias nm sch c, fs =>
      match filterWalk tas c fs with
      | .error e => .error e
      | .ok (c', fs') => filterVisit tas (.subqueryAlias nm sch c') fs'
  | .filter p c, fs =>
      match filterWalk tas c fs with
      | .error e => .error e
      | .ok (c', fs') => filterVisit tas (.filter p c') fs'
  | .project es c, fs =>
      match filterWalk tas c fs with
      | .error e => .error e
      | .ok (c', fs') => filterVisit tas (.project es c') fs'
  | .decoratedNode lbl c, fs =>
      match filterWalk tas c fs with
      | .error e => .error e
      | .ok (c', fs') => filterVisit tas (.decoratedNode lbl c') fs'
  | .innerJoin l r cnd, fs =>
      match filterWalk tas l fs with
      | .error e => .error e
      | .ok (l', fs1) =>
          match filterWalk tas r fs1 with
          | .error e => .error e
          | .ok (r', fs2) => filterVisit tas (.innerJoin l' r' cnd) fs2
  | .leftJoin l r cnd, fs =>
      match filterWalk tas l fs with
      | .error e => .error e
      | .ok (l', fs1) => filterVisit tas (.leftJoin l' r cnd) fs1
  | .rightJoin l r cnd, fs =>
      match filterWalk tas r fs with
      | .error e => .error e
      | .ok (r', fs1) => filterVisit tas (.rightJoin l r' cnd) fs1
  | .indexedJoin jt l r cnd, fs =>
      if jt = JoinType.left ∨ jt = JoinType.right then
        match filterWalk tas l fs with
        | .error e => .error e
        | .ok (l', fs1) => filterVisit tas (.indexedJoin jt l' r cnd) fs1
      else
        match filterWalk tas l fs with
        | .error e => .error e
        | .ok (l', fs1) =>
            match filterWalk tas r fs1 with
            | .error e => .error e
            | .ok (r', fs2) => filterVisit tas (.indexedJoin jt l' r' cnd) fs2

/-- Per-node transform of the outer TransformUp of
transformPushdownFilters: a filter node builds the attribution set from
its subtree and, when the build fails, is returned unmodified with no
error; otherwise its subtree is rewritten by the filter pushdown walk
over a fresh filter set. -/
def transformPushdownFiltersVisit (tas : TableAliases) (n : Node) : Except String Node :=
  match n with
  | .filter p c =>
      match getFiltersByTable (.filter p c) with
      | .error _ => .ok (.filter p c)
      | .ok fbt =>
          match filterWalk tas (.filter p c) (newFilterSet fbt tas) with
          | .error e => .error e
          | .ok (n', _) => .ok n'
  | _ => .ok n

/-- Source function transformPushdownFilters: the outer plain
TransformUp applying transformPushdownFiltersVisit bottom-up to every
node. -/
def transformPushdownFilters (tas : TableAliases) : Node → Except String Node
  | .resolvedTable t => transformPushdownFiltersVisit tas (.resolvedTable t)
  | .indexedTableAccess t ix ks => transformPushdownFiltersVisit tas (.indexedTableAccess t ix ks)
  | .valueDerivedTable nm sch vs => transformPushdownFiltersVisit tas (.valueDerivedTable nm sch vs)
  | .tableAlias nm c =>
      match transformPushdownFilters tas c with
      | .error e => .error e
      | .ok c' => transformPushdownFiltersVisit tas (.tableAlias nm c')
  | .subqueryAlias nm sch c =>
      match transformPushdownFilters tas c with
      | .error e => .error e
      | .ok c' => transformPushdownFiltersVisit tas (.subqueryAlias nm sch c')
  | .filter p c =>
      match transformPushdownFilters tas c with
      | .error e => .error e
      | .ok c' => transformPushdownFiltersVisit tas (.filter p c')
  | .project es c =>
      match transformPushdownFilters tas c with
      | .error e => .error e
      | .ok c' => transformPushdownFiltersVisit tas (.project es c')
  | .decoratedNode lbl c =>
      match transformPushdownFilters tas c with
      | .error e => .error e
      | .ok c' => transformPushdownFiltersVisit tas (.decoratedNode lbl c')
  | .innerJoin l r cnd =>
      match transformPushdownFilters tas l with
      | .error e => .error e
      | .ok l' =>
          match transformPushdownFilters tas r with
          | .error e => .error e
          | .ok r' => transformPushdownFiltersVisit tas (.innerJoin l' r' cnd)
  | .leftJoin l r cnd =>
      match transformPushdownFilters tas l with
      | .error e => .error e
      | .ok l' =>
          match transformPushdownFilters tas r with
          | .error e => .error e
          | .ok r' => transformPushdownFiltersVisit tas (.leftJoin l' r' cnd)
  | .rightJoin l r cnd =>
      match transformPushdownFilters tas l with
      | .error e => .error e
      | .ok l' =>
          match transformPushdownFilters tas r with
          | .error e => .error e
          | .ok r' => transformPushdownFiltersVisit tas (.rightJoin l' r' cnd)
  | .indexedJoin jt l r cnd =>
      match transformPushdownFilters tas l with
      | .error e => .error e
      | .ok l' =>
          match transformPushdownFilters tas r with
          | .error e => .error e
          | .ok r' => transformPushdownFiltersVisit tas (.indexedJoin jt l' r' cnd)

/-- Per-node transform of the subquery-alias filter pushdown walk (the
closure inside transformPushdownSubqueryAliasFilters): a filter node
has its handled conjuncts removed, a subquery alias receives the
filters attributed to its name, every other node is returned
unchanged. -/
def subqAliasVisit (n : Node) (fs : FilterSet) : Except String (Node × FilterSet) :=
  match n with
  | .filter p c => .ok (removePushedDownPredicates p c fs, fs)
  | .subqueryAlias nm sch c => pushdownFiltersUnderSubqueryAlias nm sch c fs
  | _ => .ok (n, fs)

/-- TransformUpWithSelector instantiated with
filterPushdownChildSelector and subqAliasVisit. -/
def subqFilterWalk : Node → FilterSet → Except String (Node × FilterSet)
  | .resolvedTable t, fs => subqAliasVisit (.resolvedTable t) fs
  | .indexedTableAccess t ix ks, fs => subqAliasVisit (.indexedTableAccess t ix ks) fs
  | .valueDerivedTable nm sch vs, fs => subqAliasVisit (.valueDerivedTable nm sch vs) fs
  | .tableAlias nm c, fs => subqAliasVisit (.tableAlias nm c) fs
  | .subqueryAlias nm sch c, fs =>
      match subqFilterWalk c fs with
      | .error e => .error e
      | .ok (c', fs') => subqAliasVisit (.subqueryAlias nm sch c') fs'
  | .filter p c, fs =>
      match subqFilterWalk c fs with
      | .error e => .error e
      | .ok (c', fs') => subqAliasVisit (.filter p c') fs'
  | .project es c, fs =>
      match subqFilterWalk c fs with
      | .error e => .error e
      | .ok (c', fs') => subqAliasVisit (.project es c') fs'
  | .decoratedNode lbl c, fs =>
      match subqFilterWalk c fs with
      | .error e => .error e
      | .ok (c', fs') => subqAliasVisit (.decoratedNode lbl c') fs'
  | .innerJoin l r cnd, fs =>
      match subqFilterWalk l fs with
      | .error e => .error e
      | .ok (l', fs1) =>
          match subqFilterWalk r fs1 with
          | .error e => .error e
          | .ok (r', fs2) => subqAliasVisit (.innerJoin l' r' cnd) fs2
  | .leftJoin l r cnd, fs =>
      match subqFilterWalk l fs with
      | .error e => .error e
      | .ok (l', fs1) => subqAliasVisit (.leftJoin l' r cnd) fs1
  | .rightJoin l r cnd, fs =>
      match subqFilterWalk r fs with
      | .error e => .error e
      | .ok (r', fs1) => subqAliasVisit (.rightJoin l r' cnd) fs1
  | .indexedJoin jt l r cnd, fs =>
      if jt = JoinType.left ∨ jt = JoinType.right then
        match subqFilterWalk l fs with
        | .error e => .error e
        | .ok (l', fs1) => subqAliasVisit (.indexedJoin jt l' r cnd) fs1
      else
        match subqFilterWalk l fs with
        | .error e => .error e
        | .ok (l', fs1) =>
            match subqFilterWalk r fs1 with
            | .error e => .error e
            | .ok (r', fs2) => subqAliasVisit (.indexedJoin jt l' r' cnd) fs2

/-- Per-node transform of the outer TransformUp of
transformPushdownSubqueryAliasFilters: identical to the filter pass's
outer visitor except that the inner walk is the subquery-alias walk. -/
def transformPushdownSubqueryAliasFiltersVisit (tas : TableAliases) (n : Node) :
    Except String Node :=
  match n with
  | .filter p c =>
      match getFiltersByTable (.filter p c) with
      | .error _ => .ok (.filter p c)
      | .ok fbt =>
          match subqFilterWalk (.filter p c) (newFilterSet fbt tas) with
          | .error e => .error e
          | .ok (n', _) => .ok n'
  | _ => .ok n

/-- Source function transformPushdownSubqueryAliasFilters: the outer
plain TransformUp applying its per-filter visitor bottom-up. -/
def transformPushdownSubqueryAliasFilters (tas : TableAliases) : Node → Except String Node
  | .resolvedTable t => transformPushdownSubqueryAliasFiltersVisit tas (.resolvedTable t)
  | .indexedTableAccess t ix ks =>
      transformPushdownSubqueryAliasFiltersVisit tas (.indexedTableAccess t ix ks)
  | .valueDerivedTable nm sch vs =>
      transformPushdownSubqueryAliasFiltersVisit tas (.valueDerivedTable nm sch vs)
  | .tableAlias nm c =>
      match transformPushdownSubqueryAliasFilters tas c with
      | .error e => .error e
      | .ok c' => transformPushdownSubqueryAliasFiltersVisit tas (.tableAlias nm c')
  | .subqueryAlias nm sch c =>
      match transformPushdownSubqueryAliasFilters tas c with
      | .error e => .error e
      | .ok c' => transformPushdownSubqueryAliasFiltersVisit tas (.subqueryAlias nm sch c')
  | .filter p c =>
      match transformPushdownSubqueryAliasFilters tas c with
      | .error e => .error e
      | .ok c' => transformPushdownSubqueryAliasFiltersVisit tas (.filter p c')
  | .project es c =>
      match transformPushdownSubqueryAliasFilters tas c with
      | .error e => .error e
      | .ok c' => transformPushdownSubqueryAliasFiltersVisit tas (.project es c')
  | .decoratedNode lbl c =>
      match transformPushdownSubqueryAliasFilters tas c with
      | .error e => .error e
      | .ok c' => transformPushdownSubqueryAliasFiltersVisit tas (.decoratedNode lbl c')
  | .innerJoin l r cnd =>
      match transformPushdownSubqueryAliasFilters tas l with
      | .error e => .error e
      | .ok l' =>
          match transformPushdownSubqueryAliasFilters tas r with
          | .error e => .error e
          | .ok r' => transformPushdownSubqueryAliasFiltersVisit tas (.innerJoin l' r' cnd)
  | .leftJoin l r cnd =>
      match transformPushdownSubqueryAliasFilters tas l with
      | .error e => .error e
      | .ok l' =>
          match transformPushdownSubqueryAliasFilters tas r with
          | .error e => .error e
          | .ok r' => transformPushdownSubqueryAliasFiltersVisit tas (.leftJoin l' r' cnd)
  | .rightJoin l r cnd =>
      match transformPushdownSubqueryAliasFilters tas l with
      | .error e => .error e
      | .ok l' =>
          match transformPushdownSubqueryAliasFilters tas r with
          | .error e => .error e
          | .ok r' => transformPushdownSubqueryAliasFiltersVisit tas (.rightJoin l' r' cnd)
  | .indexedJoin jt l r cnd =>
      match transformPushdownSubqueryAliasFilters tas l with
      | .error e => .error e
      | .ok l' =>
          match transformPushdownSubqueryAliasFilters tas r with
          | .error e => .error e
          | .ok r' => transformPushdownSubqueryAliasFiltersVisit tas (.indexedJoin jt l' r' cnd)

/-- Modelled from the spec: TransformExpressionsUpWithNode instantiated
with the alias-normalization step of convertFiltersToIndexedAccess:
every node's own expressions are renormalized from alias-qualified to
base-table-qualified references, except a table alias node's own
expressions (of which there are none). -/
def normalizeNodeExprs (tas : TableAliases) : Node → Node
  | .resolvedTable t => .resolvedTable t
  | .tableAlias nm c => .tableAlias nm (normalizeNodeExprs tas c)
  | .indexedTableAccess t ix ks => .indexedTableAccess t ix (normalizeExpressions tas ks)
  | .valueDerivedTable nm sch vs =>
      .valueDerivedTable nm sch (vs.map (normalizeExpressions tas))
  | .subqueryAlias nm sch c => .subqueryAlias nm sch (normalizeNodeExprs tas c)
  | .filter p c => .filter (normalizeExpression tas p) (normalizeNodeExprs tas c)
  | .project es c => .project (normalizeExpressions tas es) (normalizeNodeExprs tas c)
  | .innerJoin l r cnd =>
      .innerJoin (normalizeNodeExprs tas l) (normalizeNodeExprs tas r)
        (normalizeExpression tas cnd)
  | .leftJoin l r cnd =>
      .leftJoin (normalizeNodeExprs tas l) (normalizeNodeExprs tas r)
        (normalizeExpression tas cnd)
  | .rightJoin l r cnd =>
      .rightJoin (normalizeNodeExprs tas l) (normalizeNodeExprs tas r)
        (normalizeExpression tas cnd)
  | .indexedJoin jt l r cnd =>
      .indexedJoin jt (normalizeNodeExprs tas l) (normalizeNodeExprs tas r)
        (normalizeExpression tas cnd)
  | .decoratedNode lbl c => .decoratedNode lbl (normalizeNodeExprs tas c)

/-- Plain TransformUp applying the table-node field-index fixer at
every index-scan node (the last step of the table-alias branch of
convertFiltersToIndexedAccess). -/
def fixIndexedAccessNodes : Node → Except String Node
  | .resolvedTable t => .ok (.resolvedTable t)
  | .indexedTableAccess t ix ks => fixTableNode (.indexedTableAccess t ix ks)
  | .valueDerivedTable nm sch vs => .ok (.valueDerivedTable nm sch vs)
  | .tableAlias nm c =>
      match fixIndexedAccessNodes c with
      | .error e => .error e
      | .ok c' => .ok (.tableAlias nm c')
  | .subqueryAlias nm sch c =>
      match fixIndexedAccessNodes c with
      | .error e => .error e
      | .ok c' => .ok (.subqueryAlias nm sch c')
  | .filter p c =>
      match fixIndexedAccessNodes c with
      | .error e => .error e
      | .ok c' => .ok (.filter p c')
  | .project es c =>
      match fixIndexedAccessNodes c with
      | .error e => .error e
      | .ok c' => .ok (.project es c')
  | .decoratedNode lbl c =>
      match fixIndexedAccessNodes c with
      | .error e => .error e
      | .ok c' => .ok (.decoratedNode lbl c')
  | .innerJoin l r cnd =>
      match fixIndexedAccessNodes l with
      | .error e => .error e
      | .ok l' =>
          match fixIndexedAccessNodes r with
          | .error e => .error e
          | .ok r' => .ok (.innerJoin l' r' cnd)
  | .leftJoin l r cnd =>
      match fixIndexedAccessNodes l with
      | .error e => .error e
      | .ok l' =>
          match fixIndexedAccessNodes r with
          | .error e => .error e
          | .ok r' => .ok (.leftJoin l' r' cnd)
  | .rightJoin l r cnd =>
      match fixIndexedAccessNodes l with
      | .error e => .error e
      | .ok l' =>
          match fixIndexedAccessNodes r with
          | .error e => .error e
          | .ok r' => .ok (.rightJoin l' r' cnd)
  | .indexedJoin jt l r cnd =>
      match fixIndexedAccessNodes l with
      | .error e => .error e
      | .ok l' =>
          match fixIndexedAccessNodes r with
          | .error e => .error e
          | .ok r' => .ok (.indexedJoin jt l' r' cnd)

/-- Per-node transform of the index-conversion walk: a table alias gets
indexes pushed down, its key expressions renormalized and its index
scans fixed; a resolved table gets indexes pushed down and is fixed by
the table-node fixer (its children-schema fixer would resolve against
nothing); every other node is fixed against its children's schemas. -/
def convertVisit (tas : TableAliases) (indexes : IndexesByTable) (n : Node) :
    Except String Node :=
  match n with
  | .tableAlias nm c =>
      match pushdownIndexesToTable (.tableAlias nm c) indexes with
      | .error e => .error e
      | .ok table => fixIndexedAccessNodes (normalizeNodeExprs tas table)
  | .resolvedTable t =>
      match pushdownIndexesToTable (.resolvedTable t) indexes with
      | .error e => .error e
      | .ok table => fixTableNode table
  | _ => fixNode n

/-- TransformUpWithSelector instantiated with convertChildSelector and
convertVisit: an index-scan child is never descended into, joins
restrict eligible sides, then the rebuilt node is visited. -/
def convertWalk (tas : TableAliases) (indexes : IndexesByTable) : Node → Except String Node
  | .resolvedTable t => convertVisit tas indexes (.resolvedTable t)
  | .indexedTableAccess t ix ks => convertVisit tas indexes (.indexedTableAccess t ix ks)
  | .valueDerivedTable nm sch vs => convertVisit tas indexes (.valueDerivedTable nm sch vs)
  | .tableAlias nm c =>
      match (if c.isIndexedTableAccess then Except.ok c else convertWalk tas indexes c) with
      | .error e => .error e
      | .ok c' => convertVisit tas indexes (.tableAlias nm c')
  | .subqueryAlias nm sch c =>
      match (if c.isIndexedTableAccess then Except.ok c else convertWalk tas indexes c) with
      | .error e => .error e
      | .ok c' => convertVisit tas indexes (.subqueryAlias nm sch c')
  | .filter p c =>
      match (if c.isIndexedTableAccess then Except.ok c else convertWalk tas indexes c) with
      | .error e => .error e
      | .ok c' => convertVisit tas indexes (.filter p c')
  | .project es c =>
      match (if c.isIndexedTableAccess then Except.ok c else convertWalk tas indexes c) with
      | .error e => .error e
      | .ok c' => convertVisit tas indexes (.project es c')
  | .decoratedNode lbl c =>
      match (if c.isIndexedTableAccess then Except.ok c else convertWalk tas indexes c) with
      | .error e => .error e
      | .ok c' => convertVisit tas indexes (.decoratedNode lbl c')
  | .innerJoin l r cnd =>
      match (if l.isIndexedTableAccess then Except.ok l else convertWalk tas indexes l) with
      | .error e => .error e
      | .ok l' =>
          match (if r.isIndexedTableAccess then Except.ok r else convertWalk tas indexes r) with
          | .error e => .error e
          | .ok r' => convertVisit tas indexes (.innerJoin l' r' cnd)
  | .leftJoin l r cnd =>
      match (if l.isIndexedTableAccess then Except.ok l else convertWalk tas indexes l) with
      | .error e => .error e
      | .ok l' => convertVisit tas indexes (.leftJoin l' r cnd)
  | .rightJoin l r cnd =>
      match (if r.isIndexedTableAccess then Except.ok r else convertWalk tas indexes r) with
      | .error e => .error e
      | .ok r' => convertVisit tas indexes (.rightJoin l r' cnd)
  | .indexedJoin jt l r cnd =>
      match (if l.isIndexedTableAccess then Except.ok l else convertWalk tas indexes l) with
      | .error e => .error e
      | .ok l' => convertVisit tas indexes (.indexedJoin jt l' r cnd)

/-- Source function convertFiltersToIndexedAccess: the selector-guarded
walk, with its error propagated unchanged. -/
def convertFiltersToIndexedAccess (tas : TableAliases) (indexes : IndexesByTable)
    (n : Node) : Except String Node :=
  match convertWalk tas indexes n with
  | .error e => .error e
  | .ok node => .ok node

/-- Per-node transform of the projection pushdown walk: table-like
nodes (alias, resolved table, index scan) get the projection pushed
down and are then fixed; every other node is fixed. -/
def projVisit (fbt : FieldsByTable) (n : Node) (used : FieldsByTable) :
    Except String (Node × FieldsByTable) :=
  match n with
  | .tableAlias _ _ | .resolvedTable _ | .indexedTableAccess _ _ _ =>
      match pushdownProjectionsToTable fbt n used with
      | .error e => .error e
      | .ok (t, used') =>
          match fixNode t with
          | .error e => .error e
          | .ok t' => .ok (t', used')
  | _ =>
      match fixNode n with
      | .error e => .error e
      | .ok n' => .ok (n', used)

/-- TransformUpWithSelector instantiated with the projection pass's
selector (descent blocked below a table alias) and projVisit; the
per-pass record of used projections is threaded left to right. -/
def projWalk (fbt : FieldsByTable) : Node → FieldsByTable → Except String (Node × FieldsByTable)
  | .resolvedTable t, u => projVisit fbt (.resolvedTable t) u
  | .indexedTableAccess t ix ks, u => projVisit fbt (.indexedTableAccess t ix ks) u
  | .valueDerivedTable nm sch vs, u => projVisit fbt (.valueDerivedTable nm sch vs) u
  | .tableAlias nm c, u => projVisit fbt (.tableAlias nm c) u
  | .subqueryAlias nm sch c, u =>
      match projWalk fbt c u with
      | .error e => .error e
      | .ok (c', u') => projVisit fbt (.subqueryAlias nm sch c') u'
  | .filter p c, u =>
      match projWalk fbt c u with
      | .error e => .error e
      | .ok (c', u') => projVisit fbt (.filter p c') u'
  | .project es c, u =>
      match projWalk fbt c u with
      | .error e => .error e
      | .ok (c', u') => projVisit fbt (.project es c') u'
  | .decoratedNode lbl c, u =>
      match projWalk fbt c u with
      | .error e => .error e
      | .ok (c', u') => projVisit fbt (.decoratedNode lbl c') u'
  | .innerJoin l r cnd, u =>
      match projWalk fbt l u with
      | .error e => .error e
      | .ok (l', u1) =>
          match projWalk fbt r u1 with
          | .error e => .error e
          | .ok (r', u2) => projVisit fbt (.innerJoin l' r' cnd) u2
  | .leftJoin l r cnd, u =>
      match projWalk fbt l u with
      | .error e => .error e
      | .ok (l', u1) =>
          match projWalk fbt r u1 with
          | .error e => .error e
          | .ok (r', u2) => projVisit fbt (.leftJoin l' r' cnd) u2
  | .rightJoin l r cnd, u =>
      match projWalk fbt l u with
      | .error e => .error e
      | .ok (l', u1) =>
          match projWalk fbt r u1 with
          | .error e => .error e
          | .ok (r', u2) => projVisit fbt (.rightJoin l' r' cnd) u2
  | .indexedJoin jt l r cnd, u =>
      match projWalk fbt l u with
      | .error e => .error e
      | .ok (l', u1) =>
          match projWalk fbt r u1 with
          | .error e => .error e
          | .ok (r', u2) => projVisit fbt (.indexedJoin jt l' r' cnd) u2

/-- Source function transformPushdownProjections: computes the
per-table field usage for the whole tree, then runs the
selector-guarded projection walk with a fresh used-projections
record. -/
def transformPushdownProjections (n : Node) : Except String Node :=
  match projWalk (getFieldsByTable n) n [] with
  | .error e => .error e
  | .ok (n', _) => .ok n'

/-- Source function pushdownProjections: the projection pass with its
canProject guard (the canDoPushdown guard is identically true on the
modelled node variants). -/
def pushdownProjections (n : Node) : Except String Node :=
  if canProject n then transformPushdownProjections n else .ok n

/-- Source function pushdownFilters: the filter pass.  The per-table
index lookup construction (getIndexesByTable) is an external
collaborator and is passed in as a function; the pass then converts
filters to indexed accesses and pushes the remaining filters down. -/
def pushdownFilters (getIdx : Node → Except String IndexesByTable) (n : Node) :
    Except String Node :=
  match getIdx n with
  | .error e => .error e
  | .ok indexes =>
      match convertFiltersToIndexedAccess (getTableAliases n) indexes n with
      | .error e => .error e
      | .ok n' => transformPushdownFilters (getTableAliases n) n'

/-- Source function pushdownSubqueryAliasFilters: builds the table
alias map and runs the subquery-alias filter transform. -/
def pushdownSubqueryAliasFilters (n : Node) : Except String Node :=
  transformPushdownSubqueryAliasFilters (getTableAliases n) n

def Node.isSubqueryAlias : Node → Bool
  | .subqueryAlias _ _ _ => true
  | _ => false

/-- Node variants accepted by the final switch of
pushdownProjectionsToTable. -/
def Node.isProjTarget : Node → Bool
  | .resolvedTable _ => true
  | .tableAlias _ _ => true
  | .indexedTableAccess _ _ _ => true
  | _ => false

/-- Fixture: inner child of a subquery alias, a resolved table t. -/
def subqFixtureChild : Node := .resolvedTable (sampleTable "t")

/-- Fixture: exposed schema of the subquery alias sq. -/
def subqFixtureSchema : List Column := [⟨"sq", "c0"⟩]

/-- Fixture: one filter attributed to the alias sq, with a stale cached
index. -/
def subqFixtureFs : FilterSet := newFilterSet [("sq", [.getField "sq" "c0" 7])] []

/-- Fixture: expected rewritten subquery alias. -/
def subqFixtureNodeOut : Node :=
  .subqueryAlias "sq" subqFixtureSchema (.filter (.getField "t" "x" 0) subqFixtureChild)

/-- Fixture: expected filter set after marking the alias filter
handled. -/
def subqFixtureFsOut : FilterSet :=
  { filtersByTable := [("sq", [.getField "sq" "c0" 7])]
    handledFilters := [.getField "sq" "c0" 7]
    tableAliases := [] }

/-- Fixture: an index-scan node whose key expression carries a column
reference, used to exhibit the skipped field-index fixup. -/
def staleIndexScan : Node :=
  .indexedTableAccess (sampleTable "t") "idx" [.getField "t" "x" 9]

/-- Fixture: a projectable table. -/
def projTable : Table :=
  { name := "t"
    schema := [⟨"t", "x"⟩, ⟨"t", "y"⟩]
    filtered := false
    canHandle := []
    appliedFilters := []
    projectable := true
    projection := none
    indexAddressable := false }

/-- Fixture: field usage assigning column x to table t. -/
def projFbt : FieldsByTable := [("t", ["x"])]

/-- Fixture: used-projections record after a first encounter of t. -/
def projUsed : FieldsByTable := [("t", ["x"])]

/-- Fixture: a filter over the projectable table t, input of the
projection-pass idempotence witness. -/
def projPassInput : Node :=
  .filter (.eq (.getField "t" "x" 0) (.lit 5)) (.resolvedTable projTable)

/-- Fixture: the tree produced by one application of the projection
pass to projPassInput: the table is projected to column x and wrapped
in the decorator. -/
def projPassOutput : Node :=
  .filter (.eq (.getField "t" "x" 0) (.lit 5))
    (.decoratedNode "Projected table access on x"
      (.resolvedTable (projTable.withProjection ["x"])))

/-! Theorems. -/

/-- C1 (counterexample): the claim states that the filter-pushdown child
selector permits descent into a right-type indexed join only at child
index 1; the code permits descent only at child index 0 for both left
and right indexed joins (source lines 171-175 return childNum == 0 for
either outer type). -/
theorem C1_counterexample :
    filterPushdownChildSelector (.indexedJoin .right nodeA nodeB (.lit 0)) nodeB 1 = false ∧
    filterPushdownChildSelector (.indexedJoin .right nodeA nodeB (.lit 0)) nodeA 0 = true :=
  ⟨rfl, rfl⟩

/-- C1 (amended): the filter-pushdown child selector permits descent
into a left join only at child index 0, into a right join only at child
index 1, into an indexed join at child index 0 only when its join type
is left or right and into both children otherwise, and never descends
below a table-alias node; all other parents permit descent into every
child. -/
theorem C1_selector_spec (parent child : Node) (i : Nat) :
    (parent.isTableAlias = true → filterPushdownChildSelector parent child i = false) ∧
    (∀ l r c, parent = .leftJoin l r c →
      (filterPushdownChildSelector parent child i = true ↔ i = 0)) ∧
    (∀ l r c, parent = .rightJoin l r c →
      (filterPushdownChildSelector parent child i = true ↔ i = 1)) ∧
    (∀ jt l r c, parent = .indexedJoin jt l r c → (jt = .left ∨ jt = .right) →
      (filterPushdownChildSelector parent child i = true ↔ i = 0)) ∧
    (∀ l r c, parent = .indexedJoin .inner l r c →
      filterPushdownChildSelector parent child i = true) ∧
    (filterSelectorUnrestricted parent = true →
      filterPushdownChildSelector parent child i = true) := by
  refine ⟨?_, ?_, ?_, ?_, ?_, ?_⟩
  · intro h
    cases parent <;> simp_all [Node.isTableAlias, filterPushdownChildSelector]
  · rintro l r c rfl
    simp [filterPushdownChildSelector]
  · rintro l r c rfl
    simp [filterPushdownChildSelector]
  · rintro jt l r c rfl h
    rcases h with h | h <;> subst h <;> simp [filterPushdownChildSelector]
  · rintro l r c rfl
    simp [filterPushdownChildSelector]
  · intro h
    cases parent <;> simp_all [filterSelectorUnrestricted, filterPushdownChildSelector]

/-- C1 witness: the amended selector characterization applied at a
concrete left join. -/
theorem C1_selector_spec_witness :
    filterPushdownChildSelector (.leftJoin nodeA nodeB (.lit 0)) nodeA 0 = true := by
  exact ((C1_selector_spec (.leftJoin nodeA nodeB (.lit 0)) nodeA 0).2.1
    nodeA nodeB (.lit 0) rfl).mpr rfl

/-- C2 (counterexample): the claim states that the index-conversion
child selector applies the indexed-join restriction only per the join's
outer type (so an inner-type indexed join would leave both sides
eligible, as the filter-pushdown selector does); the code restricts an
indexed join to child index 0 unconditionally (source line 296). -/
theorem C2_counterexample :
    convertChildSelector (.indexedJoin .inner nodeA nodeB (.lit 0)) nodeB 1 = false ∧
    filterPushdownChildSelector (.indexedJoin .inner nodeA nodeB (.lit 0)) nodeB 1 = true :=
  ⟨rfl, rfl⟩

/-- C2 (amended): the index-conversion child selector never descends
into a child that is already an index-scan node; for an indexed join
only child index 0 is eligible regardless of its join type; for a left
join only child index 0; for a right join only child index 1; all other
parents permit descent into every non-index-scan child. -/
theorem C2_selector_spec (parent child : Node) (i : Nat) :
    (child.isIndexedTableAccess = true → convertChildSelector parent child i = false) ∧
    (child.isIndexedTableAccess = false →
      (∀ jt l r c, parent = .indexedJoin jt l r c →
        (convertChildSelector parent child i = true ↔ i = 0)) ∧
      (∀ l r c, parent = .leftJoin l r c →
        (convertChildSelector parent child i = true ↔ i = 0)) ∧
      (∀ l r c, parent = .rightJoin l r c →
        (convertChildSelector parent child i = true ↔ i = 1)) ∧
      (convertSelectorUnrestricted parent = true →
        convertChildSelector parent child i = true)) := by
  constructor
  · intro h
    cases child <;> simp_all [Node.isIndexedTableAccess, convertChildSelector]
  · intro h
    refine ⟨?_, ?_, ?_, ?_⟩
    · rintro jt l r c rfl
      cases child <;> simp_all [Node.isIndexedTableAccess, convertChildSelector]
    · rintro l r c rfl
      cases child <;> simp_all [Node.isIndexedTableAccess, convertChildSelector]
    · rintro l r c rfl
      cases child <;> simp_all [Node.isIndexedTableAccess, convertChildSelector]
    · intro hu
      cases parent <;> cases child <;>
        simp_all [Node.isIndexedTableAccess, convertSelectorUnrestricted, convertChildSelector]

/-- C2 witness: the amended selector characterization applied at a
concrete indexed-table-access child and at a concrete indexed join. -/
theorem C2_selector_spec_witness :
    convertChildSelector nodeA (.indexedTableAccess (sampleTable "a") "idx" []) 0 = false ∧
    convertChildSelector (.indexedJoin .left nodeA nodeB (.lit 0)) nodeA 0 = true := by
  constructor
  · exact (C2_selector_spec nodeA (.indexedTableAccess (sampleTable "a") "idx" []) 0).1 rfl
  · exact (((C2_selector_spec (.indexedJoin .left nodeA nodeB (.lit 0)) nodeA 0).2 rfl).1
      .left nodeA nodeB (.lit 0) rfl).mpr rfl

/-- C4: for every filter node processed after the subtree walk, if no
conjuncts were marked handled the filter node is returned untouched; if
every conjunct was marked handled the filter node is removed and
replaced by its child; otherwise a new filter node is built from
exactly the unhandled conjuncts, conjoined with AND in their original
relative order, over the same child. -/
theorem C4_removePushedDownPredicates_spec (pred : Expr) (child : Node) (fs : FilterSet) :
    (fs.handledCount = 0 →
      removePushedDownPredicates pred child fs = .filter pred child) ∧
    (fs.handledCount ≠ 0 → fs.availableFilters = [] →
      removePushedDownPredicates pred child fs = child) ∧
    (fs.handledCount ≠ 0 → fs.availableFilters ≠ [] →
      removePushedDownPredicates pred child fs =
        .filter (joinAnd fs.availableFilters) child) := by
  refine ⟨?_, ?_, ?_⟩
  · intro h
    simp [removePushedDownPredicates, h]
  · intro h h2
    simp [removePushedDownPredicates, h, h2]
  · intro h h2
    simp [removePushedDownPredicates, h, h2, List.isEmpty_iff]

/-- C4 witness: the three branches at concrete inputs.  The first
filter set has nothing handled, the second has its only conjunct
handled, the third has one of two conjuncts handled. -/
theorem C4_removePushedDownPredicates_spec_witness :
    removePushedDownPredicates (.lit 5) nodeA
      (newFilterSet [("a", [.lit 5])] []) = .filter (.lit 5) nodeA ∧
    removePushedDownPredicates (.lit 5) nodeA
      { filtersByTable := [("a", [.lit 5])], handledFilters := [.lit 5],
        tableAliases := [] } = nodeA ∧
    removePushedDownPredicates (.and (.lit 5) (.lit 6)) nodeA
      { filtersByTable := [("a", [.lit 5, .lit 6])], handledFilters := [.lit 5],
        tableAliases := [] } = .filter (.lit 6) nodeA := by
  refine ⟨?_, ?_, ?_⟩
  · exact (C4_removePushedDownPredicates_spec (.lit 5) nodeA
      (newFilterSet [("a", [.lit 5])] [])).1 (by decide)
  · exact (C4_removePushedDownPredicates_spec (.lit 5) nodeA
      { filtersByTable := [("a", [.lit 5])], handledFilters := [.lit 5],
        tableAliases := [] }).2.1 (by decide) (by decide)
  · have h := (C4_removePushedDownPredicates_spec (.and (.lit 5) (.lit 6)) nodeA
      { filtersByTable := [("a", [.lit 5, .lit 6])], handledFilters := [.lit 5],
        tableAliases := [] }).2.2 (by decide) (by decide)
    rw [h]
    rfl

lemma mapExcept_length {f : α → Except String β} :
    ∀ {xs : List α} {ys : List β}, mapExcept f xs = .ok ys → ys.length = xs.length := by
  intro xs
  induction xs with
  | nil =>
      intro ys h
      simp [mapExcept] at h
      simp [← h]
  | cons a as ih =>
      intro ys h
      simp only [mapExcept] at h
      cases hfa : f a with
      | error e => simp [hfa] at h
      | ok b =>
          cases hrec : mapExcept f as with
          | error e => simp [hfa, hrec] at h
          | ok bs =>
              simp [hfa, hrec] at h
              simp [← h, ih hrec]

lemma mapExcept_mem {f : α → Except String β} :
    ∀ {xs : List α} {ys : List β}, mapExcept f xs = .ok ys →
      ∀ y ∈ ys, ∃ x ∈ xs, f x = .ok y := by
  intro xs
  induction xs with
  | nil =>
      intro ys h
      simp [mapExcept] at h
      simp [h]
  | cons a as ih =>
      intro ys h
      simp only [mapExcept] at h
      cases hfa : f a with
      | error e => simp [hfa] at h
      | ok b =>
          cases hrec : mapExcept f as with
          | error e => simp [hfa, hrec] at h
          | ok bs =>
              simp [hfa, hrec] at h
              intro y hy
              rw [← h] at hy
              rcases List.mem_cons.mp hy with hy | hy
              · exact ⟨a, List.mem_cons_self a as, hy ▸ hfa⟩
              · rcases ih hrec y hy with ⟨x, hx, hfx⟩
                exact ⟨x, List.mem_cons_of_mem a hx, hfx⟩

lemma rewriteToChildSchema_getFields {cs : List Column} :
    ∀ {e e' : Expr}, rewriteToChildSchema cs e = .ok e' →
      ∀ gf ∈ e'.getFields, cs[gf.2.2]? = some ⟨gf.1, gf.2.1⟩ := by
  intro e
  induction e with
  | getField t n i =>
      intro e' h gf hgf
      simp only [rewriteToChildSchema] at h
      cases hc : cs[i]? with
      | none => simp [hc] at h
      | some col =>
          simp [hc] at h
          subst h
          simp [Expr.getFields] at hgf
          subst hgf
          simpa using hc
  | lit v =>
      intro e' h gf hgf
      simp only [rewriteToChildSchema] at h
      simp at h
      subst h
      simp [Expr.getFields] at hgf
  | and l r ihl ihr =>
      intro e' h gf hgf
      simp only [rewriteToChildSchema] at h
      cases hl : rewriteToChildSchema cs l with
      | error e => simp [hl] at h
      | ok l' =>
          cases hr : rewriteToChildSchema cs r with
          | error e => simp [hl, hr] at h
          | ok r' =>
              simp [hl, hr] at h
              subst h
              simp [Expr.getFields] at hgf
              rcases hgf with hgf | hgf
              · exact ihl hl gf hgf
              · exact ihr hr gf hgf
  | or l r ihl ihr =>
      intro e' h gf hgf
      simp only [rewriteToChildSchema] at h
      cases hl : rewriteToChildSchema cs l with
      | error e => simp [hl] at h
      | ok l' =>
          cases hr : rewriteToChildSchema cs r with
          | error e => simp [hl, hr] at h
          | ok r' =>
              simp [hl, hr] at h
              subst h
              simp [Expr.getFields] at hgf
              rcases hgf with hgf | hgf
              · exact ihl hl gf hgf
              · exact ihr hr gf hgf
  | eq l r ihl ihr =>
      intro e' h gf hgf
      simp only [rewriteToChildSchema] at h
      cases hl : rewriteToChildSchema cs l with
      | error e => simp [hl] at h
      | ok l' =>
          cases hr : rewriteToChildSchema cs r with
          | error e => simp [hl, hr] at h
          | ok r' =>
              simp [hl, hr] at h
              subst h
              simp [Expr.getFields] at hgf
              rcases hgf with hgf | hgf
              · exact ihl hl gf hgf
              · exact ihr hr gf hgf

/-- C5: a subquery-alias node with no available filters attributed to
its name is returned unchanged; otherwise the attributed predicates are
marked handled, every column reference of every rewritten predicate
resolves, at its cached position, to the owning table and column name
of the corresponding column of the inner child schema, and the alias is
returned with a single new filter node (the rewritten predicates
AND-joined) wrapping its former child as its sole child. -/
theorem C5_pushdownFiltersUnderSubqueryAlias_spec (nm : String) (sch : List Column)
    (child : Node) (fs : FilterSet) :
    (fs.availableFiltersForTable nm = [] →
      pushdownFiltersUnderSubqueryAlias nm sch child fs =
        .ok (.subqueryAlias nm sch child, fs)) ∧
    (∀ n' fs', fs.availableFiltersForTable nm ≠ [] →
      pushdownFiltersUnderSubqueryAlias nm sch child fs = .ok (n', fs') →
      fs' = fs.markFiltersHandled (fs.availableFiltersForTable nm) ∧
      ∃ rewritten : List Expr,
        n' = .subqueryAlias nm sch (.filter (joinAnd rewritten) child) ∧
        rewritten.length = (fs.availableFiltersForTable nm).length ∧
        ∀ e ∈ rewritten, ∀ gf ∈ e.getFields,
          child.schema[gf.2.2]? = some ⟨gf.1, gf.2.1⟩) := by
  constructor
  · intro h
    simp [pushdownFiltersUnderSubqueryAlias, h]
  · intro n' fs' hne h
    rw [pushdownFiltersUnderSubqueryAlias] at h
    rw [if_neg (by simpa [List.isEmpty_iff] using hne)] at h
    cases hfix : fixExprs sch (fs.availableFiltersForTable nm) with
    | error e => simp [hfix] at h
    | ok fixed =>
        cases hrw : mapExcept (rewriteToChildSchema child.schema) fixed with
        | error e => simp [hfix, hrw] at h
        | ok rewritten =>
            simp only [hfix, hrw, Except.ok.injEq, Prod.mk.injEq] at h
            refine ⟨h.2.symm, rewritten, h.1.symm, ?_, ?_⟩
            · rw [mapExcept_length hrw, mapExcept_length hfix]
            · intro e he gf hgf
              rcases mapExcept_mem hrw e he with ⟨x, _, hx⟩
              exact rewriteToChildSchema_getFields hx gf hgf

/-- C5 witness: the subquery-alias rewrite applied at a concrete alias
with one attributed filter. -/
theorem C5_pushdownFiltersUnderSubqueryAlias_spec_witness :
    subqFixtureFsOut =
      subqFixtureFs.markFiltersHandled (subqFixtureFs.availableFiltersForTable "sq") ∧
    ∃ rewritten : List Expr,
      subqFixtureNodeOut =
        .subqueryAlias "sq" subqFixtureSchema (.filter (joinAnd rewritten) subqFixtureChild) ∧
      rewritten.length = (subqFixtureFs.availableFiltersForTable "sq").length ∧
      ∀ e ∈ rewritten, ∀ gf ∈ e.getFields,
        subqFixtureChild.schema[gf.2.2]? = some ⟨gf.1, gf.2.1⟩ :=
  (C5_pushdownFiltersUnderSubqueryAlias_spec "sq" subqFixtureSchema subqFixtureChild
    subqFixtureFs).2 subqFixtureNodeOut subqFixtureFsOut (by decide) (by rfl)

/-- C3: a filter node whose predicate cannot be cleanly decomposed into
single-table and multi-table conjuncts is returned unmodified with no
error by both the filter pushdown transform and the subquery-alias
filter pushdown transform; pushdown for that filter node is silently
skipped. -/
theorem C3_attribution_failure_skips (tas : TableAliases) (p : Expr) (c : Node) (e : String) :
    getFiltersByTable (.filter p c) = .error e →
    transformPushdownFiltersVisit tas (.filter p c) = .ok (.filter p c) ∧
    transformPushdownSubqueryAliasFiltersVisit tas (.filter p c) = .ok (.filter p c) := by
  intro h
  constructor
  · simp [transformPushdownFiltersVisit, h]
  · simp [transformPushdownSubqueryAliasFiltersVisit, h]

/-- C3 witness: a predicate with an unresolvable column qualifier makes
attribution fail and leaves the filter node untouched. -/
theorem C3_attribution_failure_skips_witness :
    transformPushdownFiltersVisit [] (.filter (.eq (.getField "" "x" 0) (.lit 1)) nodeA) =
      .ok (.filter (.eq (.getField "" "x" 0) (.lit 1)) nodeA) ∧
    transformPushdownSubqueryAliasFiltersVisit []
        (.filter (.eq (.getField "" "x" 0) (.lit 1)) nodeA) =
      .ok (.filter (.eq (.getField "" "x" 0) (.lit 1)) nodeA) :=
  C3_attribution_failure_skips [] (.eq (.getField "" "x" 0) (.lit 1)) nodeA
    "could not assign filters to tables" (by rfl)

lemma replaceWithIndexedAccess_id {outer : Node} (indexes : IndexesByTable)
    (h : outer.getTable = none) : ∀ m : Node, replaceWithIndexedAccess outer indexes m = m := by
  intro m
  induction m with
  | resolvedTable t => simp [replaceWithIndexedAccess, h]
  | tableAlias nm c ih => simp [replaceWithIndexedAccess, ih]
  | indexedTableAccess t ix ks => simp [replaceWithIndexedAccess]
  | valueDerivedTable nm sch vs => simp [replaceWithIndexedAccess]
  | subqueryAlias nm sch c ih => simp [replaceWithIndexedAccess, ih]
  | filter p c ih => simp [replaceWithIndexedAccess, ih]
  | project es c ih => simp [replaceWithIndexedAccess, ih]
  | innerJoin l r cnd ihl ihr => simp [replaceWithIndexedAccess, ihl, ihr]
  | leftJoin l r cnd ihl ihr => simp [replaceWithIndexedAccess, ihl, ihr]
  | rightJoin l r cnd ihl ihr => simp [replaceWithIndexedAccess, ihl, ihr]
  | indexedJoin jt l r cnd ihl ihr => simp [replaceWithIndexedAccess, ihl, ihr]
  | decoratedNode lbl c ih => simp [replaceWithIndexedAccess, ih]

/-- C10: a table-like node from which no underlying table value can be
extracted is returned unchanged, with no error, by each of the three
per-table rewrite helpers (the subquery-alias case of the filter
helper is dispatched before the table extraction and is excluded). -/
theorem C10_no_table_skips (tas : TableAliases) (fs : FilterSet) (fbt : FieldsByTable)
    (indexes : IndexesByTable) (used : FieldsByTable) (n : Node) :
    n.getTable = none →
    (n.isSubqueryAlias = false → pushdownFiltersToTable tas n fs = .ok (n, fs)) ∧
    pushdownIndexesToTable n indexes = .ok n ∧
    pushdownProjectionsToTable fbt n used = .ok (n, used) := by
  intro h
  refine ⟨?_, ?_, ?_⟩
  · intro hsq
    cases n <;> simp_all [Node.isSubqueryAlias] <;>
      simp [pushdownFiltersToTable, h]
  · simp [pushdownIndexesToTable, replaceWithIndexedAccess_id indexes h]
  · simp [pushdownProjectionsToTable, h]

/-- C10 witness: the three helpers at a concrete value-derived table,
which carries no underlying table value. -/
theorem C10_no_table_skips_witness :
    pushdownFiltersToTable [] (.valueDerivedTable "v" [] []) (newFilterSet [] []) =
      .ok (.valueDerivedTable "v" [] [], newFilterSet [] []) ∧
    pushdownIndexesToTable (.valueDerivedTable "v" [] []) [] =
      .ok (.valueDerivedTable "v" [] []) ∧
    pushdownProjectionsToTable [] (.valueDerivedTable "v" [] []) [] =
      .ok (.valueDerivedTable "v" [] [], []) := by
  have h := C10_no_table_skips [] (newFilterSet [] []) [] [] [] (.valueDerivedTable "v" [] [])
    (by rfl)
  exact ⟨h.1 (by rfl), h.2.1, h.2.2⟩

/-- C9: divergence of the code from the claim.  The filter pushdown
walk's visitor returns a table-like node (here an index-scan node with
a column reference in its key expressions) unchanged with no error,
while the field-index fixup the claim requires as the last step of the
visit propagates an unresolvable-reference error on the same node: the
fixup call of the source (line 202) is unreachable behind the plain
return on line 201. -/
theorem C9_table_like_fixup_skipped :
    filterVisit [] staleIndexScan (newFilterSet [] []) =
      .ok (staleIndexScan, newFilterSet [] []) ∧
    fixNode staleIndexScan = .error "field missing t.x" := by
  constructor
  · rfl
  · rfl

/-- C7 (counterexample): on a subsequent encounter of an
already-projected table name, the claim states that the already-applied
projected table value is reused; the code keeps the encounter's own
table value unchanged (its projection is still absent) and only wraps
the node in the decorator. -/
theorem C7_counterexample :
    pushdownProjectionsToTable projFbt (.resolvedTable projTable) projUsed =
      .ok (.decoratedNode "Projected table access on x" (.resolvedTable projTable), projUsed) ∧
    projTable.projection = none ∧
    (projTable.withProjection ["x"]).projection = some ["x"] :=
  ⟨rfl, rfl, rfl⟩

/-- C7 (amended): within a single projection-pushdown pass, the
computed column set is applied to the underlying table, through its
projection capability, only on the first encounter of the table name
(which is then recorded); every subsequent encounter of the same name
keeps its own table value unchanged, skipping the projection
application entirely; every projected encounter (first or subsequent)
is wrapped in the descriptive decorator; a non-capable or column-less
table is returned unchanged. -/
theorem C7_pushdownProjectionsToTable_spec (fbt used : FieldsByTable) (n : Node) (t : Table) :
    n.getTable = some t →
    ((t.projectable && !(lookupFields fbt n.name).isEmpty) = false →
      pushdownProjectionsToTable fbt n used = .ok (n, used)) ∧
    ((t.projectable && !(lookupFields fbt n.name).isEmpty) = true →
      n.isProjTarget = true →
      (used.find? (fun p => p.1 == n.name) = none →
        pushdownProjectionsToTable fbt n used =
          .ok (.decoratedNode
                ("Projected table access on " ++
                  String.intercalate ", " (lookupFields fbt n.name))
                (n.withTable (t.withProjection (lookupFields fbt n.name))),
               (n.name, lookupFields fbt n.name) :: used)) ∧
      (∀ q, used.find? (fun p => p.1 == n.name) = some q →
        pushdownProjectionsToTable fbt n used =
          .ok (.decoratedNode
                ("Projected table access on " ++
                  String.intercalate ", " (lookupFields fbt n.name))
                (n.withTable t), used))) := by
  intro h
  constructor
  · intro hc
    simp [pushdownProjectionsToTable, h, hc]
  · intro hc htarget
    constructor
    · intro hfresh
      cases n
      case resolvedTable tb =>
        simp only [pushdownProjectionsToTable, h, hc]
        simp [hfresh, Node.withTable]
      case tableAlias nm c =>
        simp only [pushdownProjectionsToTable, h, hc]
        simp [hfresh, Node.withTable]
      case indexedTableAccess tb ix ks =>
        simp only [pushdownProjectionsToTable, h, hc]
        simp [hfresh, Node.withTable]
      all_goals simp [Node.isProjTarget] at htarget
    · intro q hprev
      cases n
      case resolvedTable tb =>
        simp only [pushdownProjectionsToTable, h, hc]
        simp [hprev, Node.withTable]
      case tableAlias nm c =>
        simp only [pushdownProjectionsToTable, h, hc]
        simp [hprev, Node.withTable]
      case indexedTableAccess tb ix ks =>
        simp only [pushdownProjectionsToTable, h, hc]
        simp [hprev, Node.withTable]
      all_goals simp [Node.isProjTarget] at htarget

/-- C7 witness: first and second encounters of the projectable table t
under the amended statement. -/
theorem C7_pushdownProjectionsToTable_spec_witness :
    pushdownProjectionsToTable projFbt (.resolvedTable projTable) [] =
      .ok (.decoratedNode "Projected table access on x"
            ((Node.resolvedTable projTable).withTable (projTable.withProjection ["x"])),
           ("t", ["x"]) :: []) ∧
    pushdownProjectionsToTable projFbt (.resolvedTable projTable) projUsed =
      .ok (.decoratedNode "Projected table access on x"
            ((Node.resolvedTable projTable).withTable projTable), projUsed) := by
  constructor
  · exact (((C7_pushdownProjectionsToTable_spec projFbt [] (.resolvedTable projTable)
      projTable (by rfl)).2 (by rfl) (by rfl)).1 (by rfl))
  · exact (((C7_pushdownProjectionsToTable_spec projFbt projUsed (.resolvedTable projTable)
      projTable (by rfl)).2 (by rfl) (by rfl)).2 ("t", ["x"]) (by rfl))

/-- C8: every pass returns immediately on the first error of any of its
steps, propagating that error unchanged; the result type (a tree or an
error, never both) means no invocation exposes a partially rewritten
tree alongside an error. -/
theorem C8_error_propagation (getIdx : Node → Except String IndexesByTable) (n : Node)
    (e : String) :
    (getIdx n = .error e → pushdownFilters getIdx n = .error e) ∧
    (∀ indexes, getIdx n = .ok indexes →
      convertFiltersToIndexedAccess (getTableAliases n) indexes n = .error e →
      pushdownFilters getIdx n = .error e) ∧
    (∀ indexes n', getIdx n = .ok indexes →
      convertFiltersToIndexedAccess (getTableAliases n) indexes n = .ok n' →
      pushdownFilters getIdx n = transformPushdownFilters (getTableAliases n) n') ∧
    (∀ tas indexes, convertWalk tas indexes n = .error e →
      convertFiltersToIndexedAccess tas indexes n = .error e) ∧
    (transformPushdownSubqueryAliasFilters (getTableAliases n) n = .error e →
      pushdownSubqueryAliasFilters n = .error e) ∧
    (canProject n = true → projWalk (getFieldsByTable n) n [] = .error e →
      pushdownProjections n = .error e) := by
  refine ⟨?_, ?_, ?_, ?_, ?_, ?_⟩
  · intro h
    simp [pushdownFilters, h]
  · intro idx h1 h2
    simp [pushdownFilters, h1, h2]
  · intro idx n' h1 h2
    simp [pushdownFilters, h1, h2]
  · intro tas idx h
    simp [convertFiltersToIndexedAccess, h]
  · intro h
    simp [pushdownSubqueryAliasFilters, h]
  · intro h1 h2
    simp [pushdownProjections, h1, transformPushdownProjections, h2]

/-- C8 witness: a failing index-selection collaborator aborts the
filter pass with that error. -/
theorem C8_error_propagation_witness :
    pushdownFilters (fun _ => .error "index selection failed") nodeA =
      .error "index selection failed" :=
  (C8_error_propagation (fun _ => .error "index selection failed") nodeA
    "index selection failed").1 rfl

lemma fixExpr_idem {sch : List Column} :
    ∀ {e e' : Expr}, fixExpr sch e = .ok e' → fixExpr sch e' = .ok e' := by
  intro e
  induction e with
  | getField t n i =>
      intro e' h
      simp only [fixExpr] at h
      cases hs : schemaIndexOf sch t n with
      | none => simp [hs] at h
      | some j =>
          simp [hs] at h
          subst h
          simp [fixExpr, hs]
  | lit v =>
      intro e' h
      simp only [fixExpr] at h
      simp at h
      subst h
      simp [fixExpr]
  | and l r ihl ihr =>
      intro e' h
      simp only [fixExpr] at h
      cases hl : fixExpr sch l with
      | error e => simp [hl] at h
      | ok l' =>
          cases hr : fixExpr sch r with
          | error e => simp [hl, hr] at h
          | ok r' =>
              simp [hl, hr] at h
              subst h
              simp [fixExpr, ihl hl, ihr hr]
  | or l r ihl ihr =>
      intro e' h
      simp only [fixExpr] at h
      cases hl : fixExpr sch l with
      | error e => simp [hl] at h
      | ok l' =>
          cases hr : fixExpr sch r with
          | error e => simp [hl, hr] at h
          | ok r' =>
              simp [hl, hr] at h
              subst h
              simp [fixExpr, ihl hl, ihr hr]
  | eq l r ihl ihr =>
      intro e' h
      simp only [fixExpr] at h
      cases hl : fixExpr sch l with
      | error e => simp [hl] at h
      | ok l' =>
          cases hr : fixExpr sch r with
          | error e => simp [hl, hr] at h
          | ok r' =>
              simp [hl, hr] at h
              subst h
              simp [fixExpr, ihl hl, ihr hr]

lemma fieldNames_and (l r : Expr) :
    (Expr.and l r).fieldNames = l.fieldNames ++ r.fieldNames := by
  simp [Expr.fieldNames, Expr.getFields]

lemma fieldNames_or (l r : Expr) :
    (Expr.or l r).fieldNames = l.fieldNames ++ r.fieldNames := by
  simp [Expr.fieldNames, Expr.getFields]

lemma fieldNames_eq (l r : Expr) :
    (Expr.eq l r).fieldNames = l.fieldNames ++ r.fieldNames := by
  simp [Expr.fieldNames, Expr.getFields]

lemma fixExpr_fieldNames {sch : List Column} :
    ∀ {e e' : Expr}, fixExpr sch e = .ok e' → e'.fieldNames = e.fieldNames := by
  intro e
  induction e with
  | getField t n i =>
      intro e' h
      simp only [fixExpr] at h
      cases hs : schemaIndexOf sch t n with
      | none => simp [hs] at h
      | some j =>
          simp [hs] at h
          subst h
          simp [Expr.fieldNames, Expr.getFields]
  | lit v =>
      intro e' h
      simp only [fixExpr] at h
      simp at h
      subst h
      rfl
  | and l r ihl ihr =>
      intro e' h
      simp only [fixExpr] at h
      cases hl : fixExpr sch l with
      | error e => simp [hl] at h
      | ok l' =>
          cases hr : fixExpr sch r with
          | error e => simp [hl, hr] at h
          | ok r' =>
              simp [hl, hr] at h
              subst h
              simp [fieldNames_and, ihl hl, ihr hr]
  | or l r ihl ihr =>
      intro e' h
      simp only [fixExpr] at h
      cases hl : fixExpr sch l with
      | error e => simp [hl] at h
      | ok l' =>
          cases hr : fixExpr sch r with
          | error e => simp [hl, hr] at h
          | ok r' =>
              simp [hl, hr] at h
              subst h
              simp [fieldNames_or, ihl hl, ihr hr]
  | eq l r ihl ihr =>
      intro e' h
      simp only [fixExpr] at h
      cases hl : fixExpr sch l with
      | error e => simp [hl] at h
      | ok l' =>
          cases hr : fixExpr sch r with
          | error e => simp [hl, hr] at h
          | ok r' =>
              simp [hl, hr] at h
              subst h
              simp [fieldNames_eq, ihl hl, ihr hr]

lemma mapExcept_idem {f : α → Except String α}
    (hf : ∀ x y, f x = .ok y → f y = .ok y) :
    ∀ {xs ys : List α}, mapExcept f xs = .ok ys → mapExcept f ys = .ok ys := by
  intro xs
  induction xs with
  | nil =>
      intro ys h
      simp [mapExcept] at h
      subst h
      simp [mapExcept]
  | cons a as ih =>
      intro ys h
      simp only [mapExcept] at h
      cases hfa : f a with
      | error e => simp [hfa] at h
      | ok b =>
          cases hrec : mapExcept f as with
          | error e => simp [hfa, hrec] at h
          | ok bs =>
              simp [hfa, hrec] at h
              subst h
              simp [mapExcept, hf a b hfa, ih hrec]

lemma mapExcept_map {f : α → Except String β} {g : α → γ} {g' : β → γ}
    (hg : ∀ x y, f x = .ok y → g' y = g x) :
    ∀ {xs : List α} {ys : List β}, mapExcept f xs = .ok ys → ys.map g' = xs.map g := by
  intro xs
  induction xs with
  | nil =>
      intro ys h
      simp [mapExcept] at h
      simp [← h]
  | cons a as ih =>
      intro ys h
      simp only [mapExcept] at h
      cases hfa : f a with
      | error e => simp [hfa] at h
      | ok b =>
          cases hrec : mapExcept f as with
          | error e => simp [hfa, hrec] at h
          | ok bs =>
              simp [hfa, hrec] at h
              subst h
              simp [hg a b hfa, ih hrec]

lemma fixExprs_idem {sch : List Column} {es es' : List Expr}
    (h : fixExprs sch es = .ok es') : fixExprs sch es' = .ok es' :=
  mapExcept_idem (fun _ _ hxy => fixExpr_idem hxy) h

lemma fixExprs_fieldNames {sch : List Column} {es es' : List Expr}
    (h : fixExprs sch es = .ok es') :
    es'.map Expr.fieldNames = es.map Expr.fieldNames :=
  mapExcept_map (fun _ _ hxy => fixExpr_fieldNames hxy) h

lemma listStartsWith_append : ∀ l r : List Char, listStartsWith (l ++ r) l = true := by
  intro l
  induction l with
  | nil => intro r; cases r <;> rfl
  | cons a as ih => intro r; simp [listStartsWith, ih r]

lemma listHasSub_append_self : ∀ l r : List Char, listHasSub (l ++ r) l = true := by
  intro l r
  cases l with
  | nil =>
      cases r with
      | nil => rfl
      | cons b bs => simp [listHasSub, listStartsWith]
  | cons a as =>
      simp [listHasSub, listStartsWith, listStartsWith_append]

lemma goStrContains_projMarker (s : String) :
    goStrContains ("Projected table access on " ++ s) "Projected table access on" = true := by
  have h1 : ("Projected table access on " ++ s).toList
      = "Projected table access on".toList ++ (' ' :: s.toList) := by
    have h2 : ("Projected table access on ").toList
        = "Projected table access on".toList ++ [' '] := by decide
    show ("Projected table access on " ++ s).data = _
    rw [String.data_append]
    show ("Projected table access on ").toList ++ s.data = _
    rw [h2]
    simp [String.toList]
  simp only [goStrContains, h1]
  exact listHasSub_append_self _ _

lemma containsProjDecor_marker (s : String) (c : Node) :
    containsProjDecor (.decoratedNode ("Projected table access on " ++ s) c) = true := by
  simp [containsProjDecor, goStrContains_projMarker]

lemma projWalk_stable (fbt : FieldsByTable) :
    ∀ (m : Node) (u : FieldsByTable) (m' : Node) (u' : FieldsByTable),
      projWalk fbt m u = .ok (m', u') →
      containsProjDecor m' = false →
      u' = u ∧ collectFieldNames m' = collectFieldNames m ∧
      containsIndexedJoin m' = containsIndexedJoin m ∧
      projWalk fbt m' u = .ok (m', u) := by
  intro m
  induction m with
  | resolvedTable t =>
      intro u m' u' hw hd
      cases hcond : t.projectable && !(lookupFields fbt t.name).isEmpty with
      | false =>
          have hp : pushdownProjectionsToTable fbt (.resolvedTable t) u =
              .ok (.resolvedTable t, u) := by
            simp [pushdownProjectionsToTable, Node.getTable, Node.name, hcond]
          simp only [projWalk, projVisit, hp, fixNode] at hw
          simp at hw
          obtain ⟨hm, hu⟩ := hw
          subst hm
          subst hu
          refine ⟨rfl, rfl, rfl, ?_⟩
          simp only [projWalk, projVisit, hp, fixNode]
      | true =>
          cases hfind : u.find? (fun p => p.1 == t.name) with
          | none =>
              have hp : pushdownProjectionsToTable fbt (.resolvedTable t) u =
                  .ok (.decoratedNode
                        ("Projected table access on " ++
                          String.intercalate ", " (lookupFields fbt t.name))
                        (.resolvedTable (t.withProjection (lookupFields fbt t.name))),
                       (t.name, lookupFields fbt t.name) :: u) := by
                simp [pushdownProjectionsToTable, Node.getTable, Node.name, hcond, hfind,
                  Node.withTable]
              simp only [projWalk, projVisit, hp, fixNode] at hw
              simp at hw
              obtain ⟨hm, _⟩ := hw
              rw [← hm, containsProjDecor_marker] at hd
              cases hd
          | some q =>
              have hp : pushdownProjectionsToTable fbt (.resolvedTable t) u =
                  .ok (.decoratedNode
                        ("Projected table access on " ++
                          String.intercalate ", " (lookupFields fbt t.name))
                        (.resolvedTable t), u) := by
                simp [pushdownProjectionsToTable, Node.getTable, Node.name, hcond, hfind,
                  Node.withTable]
              simp only [projWalk, projVisit, hp, fixNode] at hw
              simp at hw
              obtain ⟨hm, _⟩ := hw
              rw [← hm, containsProjDecor_marker] at hd
              cases hd
  | indexedTableAccess t ix ks =>
      intro u m' u' hw hd
      cases hcond : t.projectable && !(lookupFields fbt t.name).isEmpty with
      | false =>
          have hp : pushdownProjectionsToTable fbt (.indexedTableAccess t ix ks) u =
              .ok (.indexedTableAccess t ix ks, u) := by
            simp [pushdownProjectionsToTable, Node.getTable, Node.name, hcond]
          simp only [projWalk, projVisit, hp, fixNode] at hw
          cases hfx : fixExprs [] ks with
          | error e => simp only [hfx] at hw; simp at hw
          | ok ks' =>
              simp only [hfx] at hw
              simp at hw
              obtain ⟨hm, hu⟩ := hw
              subst hm
              subst hu
              have hp2 : pushdownProjectionsToTable fbt (.indexedTableAccess t ix ks') u =
                  .ok (.indexedTableAccess t ix ks', u) := by
                simp [pushdownProjectionsToTable, Node.getTable, Node.name, hcond]
              refine ⟨rfl, ?_, rfl, ?_⟩
              · simp [collectFieldNames, collectTreeExprs, fixExprs_fieldNames hfx]
              · simp only [projWalk, projVisit, hp2, fixNode, fixExprs_idem hfx]
      | true =>
          cases hfind : u.find? (fun p => p.1 == t.name) with
          | none =>
              have hp : pushdownProjectionsToTable fbt (.indexedTableAccess t ix ks) u =
                  .ok (.decoratedNode
                        ("Projected table access on " ++
                          String.intercalate ", " (lookupFields fbt t.name))
                        (.indexedTableAccess (t.withProjection (lookupFields fbt t.name)) ix ks),
                       (t.name, lookupFields fbt t.name) :: u) := by
                simp [pushdownProjectionsToTable, Node.getTable, Node.name, hcond, hfind,
                  Node.withTable]
              simp only [projWalk, projVisit, hp, fixNode] at hw
              simp at hw
              obtain ⟨hm, _⟩ := hw
              rw [← hm, containsProjDecor_marker] at hd
              cases hd
          | some q =>
              have hp : pushdownProjectionsToTable fbt (.indexedTableAccess t ix ks) u =
                  .ok (.decoratedNode
                        ("Projected table access on " ++
                          String.intercalate ", " (lookupFields fbt t.name))
                        (.indexedTableAccess t ix ks), u) := by
                simp [pushdownProjectionsToTable, Node.getTable, Node.name, hcond, hfind,
                  Node.withTable]
              simp only [projWalk, projVisit, hp, fixNode] at hw
              simp at hw
              obtain ⟨hm, _⟩ := hw
              rw [← hm, containsProjDecor_marker] at hd
              cases hd
  | valueDerivedTable nm sch vs =>
      intro u m' u' hw hd
      simp only [projWalk, projVisit, fixNode] at hw
      cases hvs : mapExcept (fixExprs []) vs with
      | error e => simp only [hvs] at hw; simp at hw
      | ok vs' =>
          simp only [hvs] at hw
          simp at hw
          obtain ⟨hm, hu⟩ := hw
          subst hm
          subst hu
          have hmap : vs'.map (List.map Expr.fieldNames) = vs.map (List.map Expr.fieldNames) :=
            mapExcept_map (fun _ _ hxy => fixExprs_fieldNames hxy) hvs
          refine ⟨rfl, ?_, rfl, ?_⟩
          · simp [collectFieldNames, collectTreeExprs, List.map_flatten, hmap]
          · simp only [projWalk, projVisit, fixNode,
              mapExcept_idem (fun _ _ hxy => fixExprs_idem hxy) hvs]
  | tableAlias nm c ihc =>
      intro u m' u' hw hd
      cases hg : c.getTable with
      | none =>
          have hp : pushdownProjectionsToTable fbt (.tableAlias nm c) u =
              .ok (.tableAlias nm c, u) := by
            simp [pushdownProjectionsToTable, Node.getTable, hg]
          simp only [projWalk, projVisit, hp, fixNode] at hw
          simp at hw
          obtain ⟨hm, hu⟩ := hw
          subst hm
          subst hu
          exact ⟨rfl, rfl, rfl, by simp only [projWalk, projVisit, hp, fixNode]⟩
      | some t =>
          cases hcond : t.projectable && !(lookupFields fbt nm).isEmpty with
          | false =>
              have hp : pushdownProjectionsToTable fbt (.tableAlias nm c) u =
                  .ok (.tableAlias nm c, u) := by
                simp [pushdownProjectionsToTable, Node.getTable, Node.name, hg, hcond]
              simp only [projWalk, projVisit, hp, fixNode] at hw
              simp at hw
              obtain ⟨hm, hu⟩ := hw
              subst hm
              subst hu
              exact ⟨rfl, rfl, rfl, by simp only [projWalk, projVisit, hp, fixNode]⟩
          | true =>
              cases hfind : u.find? (fun p => p.1 == nm) with
              | none =>
                  have hp : pushdownProjectionsToTable fbt (.tableAlias nm c) u =
                      .ok (.decoratedNode
                            ("Projected table access on " ++
                              String.intercalate ", " (lookupFields fbt nm))
                            (.tableAlias nm
                              (c.withTable (t.withProjection (lookupFields fbt nm)))),
                           (nm, lookupFields fbt nm) :: u) := by
                    simp [pushdownProjectionsToTable, Node.getTable, Node.name, hg, hcond,
                      hfind, Node.withTable]
                  simp only [projWalk, projVisit, hp, fixNode] at hw
                  simp at hw
                  obtain ⟨hm, _⟩ := hw
                  rw [← hm, containsProjDecor_marker] at hd
                  cases hd
              | some q =>
                  have hp : pushdownProjectionsToTable fbt (.tableAlias nm c) u =
                      .ok (.decoratedNode
                            ("Projected table access on " ++
                              String.intercalate ", " (lookupFields fbt nm))
                            (.tableAlias nm (c.withTable t)), u) := by
                    simp [pushdownProjectionsToTable, Node.getTable, Node.name, hg, hcond,
                      hfind, Node.withTable]
                  simp only [projWalk, projVisit, hp, fixNode] at hw
                  simp at hw
                  obtain ⟨hm, _⟩ := hw
                  rw [← hm, containsProjDecor_marker] at hd
                  cases hd
  | subqueryAlias nm sch c ihc =>
      intro u m' u' hw hd
      simp only [projWalk] at hw
      cases hwc : projWalk fbt c u with
      | error e => simp only [hwc] at hw; simp at hw
      | ok p =>
          obtain ⟨c1, u1⟩ := p
          simp only [hwc] at hw
          simp only [projVisit, fixNode] at hw
          simp at hw
          obtain ⟨hm, hu⟩ := hw
          subst hm
          subst hu
          have hd1 : containsProjDecor c1 = false := by
            simpa [containsProjDecor] using hd
          obtain ⟨hu1, hcoll, hij, hwalk⟩ := ihc u c1 u1 hwc hd1
          subst hu1
          refine ⟨rfl, ?_, ?_, ?_⟩
          · simpa [collectFieldNames, collectTreeExprs] using hcoll
          · simpa [containsIndexedJoin] using hij
          · simp only [projWalk, hwalk, projVisit, fixNode]
  | filter p c ihc =>
      intro u m' u' hw hd
      simp only [projWalk] at hw
      cases hwc : projWalk fbt c u with
      | error e => simp only [hwc] at hw; simp at hw
      | ok pr =>
          obtain ⟨c1, u1⟩ := pr
          simp only [hwc] at hw
          simp only [projVisit, fixNode] at hw
          cases hfx : fixExpr c1.schema p with
          | error e => simp only [hfx] at hw; simp at hw
          | ok p1 =>
              simp only [hfx] at hw
              simp at hw
              obtain ⟨hm, hu⟩ := hw
              subst hm
              subst hu
              have hd1 : containsProjDecor c1 = false := by
                simpa [containsProjDecor] using hd
              obtain ⟨hu1, hcoll, hij, hwalk⟩ := ihc u c1 u1 hwc hd1
              subst hu1
              refine ⟨rfl, ?_, ?_, ?_⟩
              · simp [collectFieldNames, collectTreeExprs, fixExpr_fieldNames hfx]
                simpa [collectFieldNames] using hcoll
              · simpa [containsIndexedJoin] using hij
              · simp only [projWalk, hwalk, projVisit, fixNode, fixExpr_idem hfx]
  | project es c ihc =>
      intro u m' u' hw hd
      simp only [projWalk] at hw
      cases hwc : projWalk fbt c u with
      | error e => simp only [hwc] at hw; simp at hw
      | ok pr =>
          obtain ⟨c1, u1⟩ := pr
          simp only [hwc] at hw
          simp only [projVisit, fixNode] at hw
          cases hfx : fixExprs c1.schema es with
          | error e => simp only [hfx] at hw; simp at hw
          | ok es1 =>
              simp only [hfx] at hw
              simp at hw
              obtain ⟨hm, hu⟩ := hw
              subst hm
              subst hu
              have hd1 : containsProjDecor c1 = false := by
                simpa [containsProjDecor] using hd
              obtain ⟨hu1, hcoll, hij, hwalk⟩ := ihc u c1 u1 hwc hd1
              subst hu1
              refine ⟨rfl, ?_, ?_, ?_⟩
              · simp [collectFieldNames, collectTreeExprs, fixExprs_fieldNames hfx]
                simpa [collectFieldNames] using hcoll
              · simpa [containsIndexedJoin] using hij
              · simp only [projWalk, hwalk, projVisit, fixNode, fixExprs_idem hfx]
  | decoratedNode lbl c ihc =>
      intro u m' u' hw hd
      simp only [projWalk] at hw
      cases hwc : projWalk fbt c u with
      | error e => simp only [hwc] at hw; simp at hw
      | ok pr =>
          obtain ⟨c1, u1⟩ := pr
          simp only [hwc] at hw
          simp only [projVisit, fixNode] at hw
          simp at hw
          obtain ⟨hm, hu⟩ := hw
          subst hm
          subst hu
          have hd' : goStrContains lbl "Projected table access on" = false ∧
              containsProjDecor c1 = false := by
            simpa [containsProjDecor] using hd
          obtain ⟨hu1, hcoll, hij, hwalk⟩ := ihc u c1 u1 hwc hd'.2
          subst hu1
          refine ⟨rfl, ?_, ?_, ?_⟩
          · simpa [collectFieldNames, collectTreeExprs] using hcoll
          · simpa [containsIndexedJoin] using hij
          · simp only [projWalk, hwalk, projVisit, fixNode]
  | innerJoin l r cnd ihl ihr =>
      intro u m' u' hw hd
      simp only [projWalk] at hw
      cases hwl : projWalk fbt l u with
      | error e => simp only [hwl] at hw; simp at hw
      | ok pl =>
          obtain ⟨l1, u1⟩ := pl
          simp only [hwl] at hw
          cases hwr : projWalk fbt r u1 with
          | error e => simp only [hwr] at hw; simp at hw
          | ok porig =>
              obtain ⟨r1, u2⟩ := porig
              simp only [hwr] at hw
              simp only [projVisit, fixNode] at hw
              cases hfx : fixExpr (l1.schema ++ r1.schema) cnd with
              | error e => simp only [hfx] at hw; simp at hw
              | ok cnd1 =>
                  simp only [hfx] at hw
                  simp at hw
                  obtain ⟨hm, hu⟩ := hw
                  subst hm
                  subst hu
                  have hd' : containsProjDecor l1 = false ∧ containsProjDecor r1 = false := by
                    simpa [containsProjDecor] using hd
                  obtain ⟨hu1, hcolll, hijl, hwalkl⟩ := ihl u l1 u1 hwl hd'.1
                  obtain ⟨hu2, hcollr, hijr, hwalkr⟩ := ihr u1 r1 u2 hwr hd'.2
                  rw [hu1] at hwalkr
                  rw [hu1] at hu2
                  refine ⟨hu2, ?_, ?_, ?_⟩
                  · simp [collectFieldNames, collectTreeExprs, fixExpr_fieldNames hfx]
                    have h1 := hcolll
                    have h2 := hcollr
                    simp [collectFieldNames] at h1 h2
                    simp [h1, h2]
                  · simp [containsIndexedJoin, hijl, hijr]
                  · simp only [projWalk, hwalkl, hwalkr, projVisit, fixNode, fixExpr_idem hfx]
  | leftJoin l r cnd ihl ihr =>
      intro u m' u' hw hd
      simp only [projWalk] at hw
      cases hwl : projWalk fbt l u with
      | error e => simp only [hwl] at hw; simp at hw
      | ok pl =>
          obtain ⟨l1, u1⟩ := pl
          simp only [hwl] at hw
          cases hwr : projWalk fbt r u1 with
          | error e => simp only [hwr] at hw; simp at hw
          | ok porig =>
              obtain ⟨r1, u2⟩ := porig
              simp only [hwr] at hw
              simp only [projVisit, fixNode] at hw
              cases hfx : fixExpr (l1.schema ++ r1.schema) cnd with
              | error e => simp only [hfx] at hw; simp at hw
              | ok cnd1 =>
                  simp only [hfx] at hw
                  simp at hw
                  obtain ⟨hm, hu⟩ := hw
                  subst hm
                  subst hu
                  have hd' : containsProjDecor l1 = false ∧ containsProjDecor r1 = false := by
                    simpa [containsProjDecor] using hd
                  obtain ⟨hu1, hcolll, hijl, hwalkl⟩ := ihl u l1 u1 hwl hd'.1
                  obtain ⟨hu2, hcollr, hijr, hwalkr⟩ := ihr u1 r1 u2 hwr hd'.2
                  rw [hu1] at hwalkr
                  rw [hu1] at hu2
                  refine ⟨hu2, ?_, ?_, ?_⟩
                  · simp [collectFieldNames, collectTreeExprs, fixExpr_fieldNames hfx]
                    have h1 := hcolll
                    have h2 := hcollr
                    simp [collectFieldNames] at h1 h2
                    simp [h1, h2]
                  · simp [containsIndexedJoin, hijl, hijr]
                  · simp only [projWalk, hwalkl, hwalkr, projVisit, fixNode, fixExpr_idem hfx]
  | rightJoin l r cnd ihl ihr =>
      intro u m' u' hw hd
      simp only [projWalk] at hw
      cases hwl : projWalk fbt l u with
      | error e => simp only [hwl] at hw; simp at hw
      | ok pl =>
          obtain ⟨l1, u1⟩ := pl
          simp only [hwl] at hw
          cases hwr : projWalk fbt r u1 with
          | error e => simp only [hwr] at hw; simp at hw
          | ok porig =>
              obtain ⟨r1, u2⟩ := porig
              simp only [hwr] at hw
              simp only [projVisit, fixNode] at hw
              cases hfx : fixExpr (l1.schema ++ r1.schema) cnd with
              | error e => simp only [hfx] at hw; simp at hw
              | ok cnd1 =>
                  simp only [hfx] at hw
                  simp at hw
                  obtain ⟨hm, hu⟩ := hw
                  subst hm
                  subst hu
                  have hd' : containsProjDecor l1 = false ∧ containsProjDecor r1 = false := by
                    simpa [containsProjDecor] using hd
                  obtain ⟨hu1, hcolll, hijl, hwalkl⟩ := ihl u l1 u1 hwl hd'.1
                  obtain ⟨hu2, hcollr, hijr, hwalkr⟩ := ihr u1 r1 u2 hwr hd'.2
                  rw [hu1] at hwalkr
                  rw [hu1] at hu2
                  refine ⟨hu2, ?_, ?_, ?_⟩
                  · simp [collectFieldNames, collectTreeExprs, fixExpr_fieldNames hfx]
                    have h1 := hcolll
                    have h2 := hcollr
                    simp [collectFieldNames] at h1 h2
                    simp [h1, h2]
                  · simp [containsIndexedJoin, hijl, hijr]
                  · simp only [projWalk, hwalkl, hwalkr, projVisit, fixNode, fixExpr_idem hfx]
  | indexedJoin jt l r cnd ihl ihr =>
      intro u m' u' hw hd
      simp only [projWalk] at hw
      cases hwl : projWalk fbt l u with
      | error e => simp only [hwl] at hw; simp at hw
      | ok pl =>
          obtain ⟨l1, u1⟩ := pl
          simp only [hwl] at hw
          cases hwr : projWalk fbt r u1 with
          | error e => simp only [hwr] at hw; simp at hw
          | ok porig =>
              obtain ⟨r1, u2⟩ := porig
              simp only [hwr] at hw
              simp only [projVisit, fixNode] at hw
              cases hfx : fixExpr (l1.schema ++ r1.schema) cnd with
              | error e => simp only [hfx] at hw; simp at hw
              | ok cnd1 =>
                  simp only [hfx] at hw
                  simp at hw
                  obtain ⟨hm, hu⟩ := hw
                  subst hm
                  subst hu
                  have hd' : containsProjDecor l1 = false ∧ containsProjDecor r1 = false := by
                    simpa [containsProjDecor] using hd
                  obtain ⟨hu1, hcolll, hijl, hwalkl⟩ := ihl u l1 u1 hwl hd'.1
                  obtain ⟨hu2, hcollr, hijr, hwalkr⟩ := ihr u1 r1 u2 hwr hd'.2
                  rw [hu1] at hwalkr
                  rw [hu1] at hu2
                  refine ⟨hu2, ?_, ?_, ?_⟩
                  · simp [collectFieldNames, collectTreeExprs, fixExpr_fieldNames hfx]
                    have h1 := hcolll
                    have h2 := hcollr
                    simp [collectFieldNames] at h1 h2
                    simp [h1, h2]
                  · simp [containsIndexedJoin]
                  · simp only [projWalk, hwalkl, hwalkr, projVisit, fixNode, fixExpr_idem hfx]

/-- C6: applying the projection-pushdown pass twice in sequence to the
same tree yields the same tree as applying it once, and the second
application returns no error: when the first application projected a
table, the tree carries the "Projected table access on" decorator and
the guard makes the second application return its input unchanged;
when it projected nothing, the pass's per-node fixups are idempotent
and the second walk reproduces its input. -/
theorem C6_pushdownProjections_idempotent (n n1 : Node)
    (h : pushdownProjections n = .ok n1) : pushdownProjections n1 = .ok n1 := by
  cases hcp : canProject n with
  | false =>
      simp [pushdownProjections, hcp] at h
      subst h
      simp [pushdownProjections, hcp]
  | true =>
      simp only [pushdownProjections, hcp, if_true] at h
      simp only [transformPushdownProjections] at h
      cases hw : projWalk (getFieldsByTable n) n [] with
      | error e => simp [hw] at h
      | ok pr =>
          obtain ⟨n1', u1⟩ := pr
          simp [hw] at h
          subst h
          cases hd : containsProjDecor n1' with
          | true => simp [pushdownProjections, canProject, hd]
          | false =>
              obtain ⟨hu, hcoll, hij, hwalk⟩ :=
                projWalk_stable (getFieldsByTable n) n [] n1' u1 hw hd
              have hcpn : containsIndexedJoin n = false ∧ containsProjDecor n = false := by
                simpa [canProject] using hcp
              have hfb : getFieldsByTable n1' = getFieldsByTable n := by
                unfold getFieldsByTable
                rw [hcoll]
              have hcp1 : canProject n1' = true := by
                simp [canProject, hd, hij, hcpn.1]
              simp [pushdownProjections, hcp1, transformPushdownProjections, hfb, hwalk]

/-- C6 witness: one application projects the table and decorates it;
the second application returns that tree unchanged with no error. -/
theorem C6_pushdownProjections_idempotent_witness :
    pushdownProjections projPassOutput = .ok projPassOutput :=
  C6_pushdownProjections_idempotent projPassInput projPassOutput (by rfl)

end GmsPushdown


